import Mathlib

/-!
Verification of the `slice_oas` reference-resolution and extraction engine.

The Python source operates on parsed YAML/JSON trees (nested dicts, lists
and scalars).  We embed such trees as the inductive type `JValue`, with
objects as insertion-ordered association lists (matching Python dict
iteration order).  All functions below are direct translations of the
corresponding Python functions in `src/slice_oas/`.
-/

set_option maxHeartbeats 1000000

namespace SliceOas

/-- A parsed YAML/JSON tree: the in-memory document representation the core
operates on.  Objects are insertion-ordered association lists with string
keys, mirroring Python dicts produced by the YAML/JSON parsers. -/
inductive JValue where
  | null : JValue
  | bool : Bool → JValue
  | num : Int → JValue
  | str : String → JValue
  | arr : List JValue → JValue
  | obj : List (String × JValue) → JValue

namespace JValue

/-- Association-list lookup: Python `d[k]` / `k in d` on a dict,
first occurrence wins (keys are unique in genuine Python dicts). -/
def lookupKV : List (String × JValue) → String → Option JValue
  | [], _ => none
  | (k, v) :: rest, key => if k = key then some v else lookupKV rest key

/-- Python `d.get(key)` on a `JValue` that may or may not be a dict
(returns `none` when the value is not a dict at all). -/
def jGet : JValue → String → Option JValue
  | .obj kvs, key => lookupKV kvs key
  | _, _ => none

/-- Python `d.get(key, default)`. -/
def jGetD (v : JValue) (key : String) (dflt : JValue) : JValue :=
  (jGet v key).getD dflt

/-- Python dict assignment `d[k] = v`: update the first occurrence in
place, or append when the key is absent. -/
def setKey : List (String × JValue) → String → JValue → List (String × JValue)
  | [], key, v => [(key, v)]
  | (k, w) :: rest, key, v =>
      if k = key then (key, v) :: rest else (k, w) :: setKey rest key v

/-- Python `del d[k]`: remove the first occurrence of the key. -/
def delKey : List (String × JValue) → String → List (String × JValue)
  | [], _ => []
  | (k, w) :: rest, key => if k = key then rest else (k, w) :: delKey rest key

/-- Python truthiness (`if not x`) for the tree values the core inspects:
`None`, `False`, `0`, `""`, `[]` and `{}` are falsy. -/
def jFalsy : JValue → Bool
  | .null => true
  | .bool b => !b
  | .num n => n = 0
  | .str s => s = ""
  | .arr xs => xs.isEmpty
  | .obj kvs => kvs.isEmpty

/-- Keys of a dict, in order. -/
def keysOf (kvs : List (String × JValue)) : List String := kvs.map Prod.fst

end JValue

/-- Python `s.split(sep)` for a one-character separator, over the string's
character list (splits at every occurrence, keeping empty segments; an
empty string yields `[""]`). -/
def pySplitAux (sep : Char) : List Char → List Char → List String
  | [], acc => [String.mk acc.reverse]
  | c :: rest, acc =>
      if c = sep then String.mk acc.reverse :: pySplitAux sep rest []
      else pySplitAux sep rest (c :: acc)

/-- Python `s.split(sep)` (single-character separator). -/
def pySplit (s : String) (sep : Char) : List String := pySplitAux sep s.data []

/-- Python `s.startswith(prefixStr)`. -/
def pyStartsWith (s prefixStr : String) : Bool := prefixStr.data.isPrefixOf s.data

/-- Python `sep.join(parts)`. -/
def pyJoin (sep : String) (parts : List String) : String :=
  String.mk (List.intercalate sep.data (parts.map String.data))

/-- Python `s.lower()` (ASCII, which covers the HTTP method names the source
lower-cases). -/
def pyLower (s : String) : String := String.mk (s.data.map Char.toLower)

/-- Python `s.upper()` (ASCII). -/
def pyUpper (s : String) : String := String.mk (s.data.map Char.toUpper)

open JValue

/-- `ComponentType` (`models.py`): the closed enumeration of the eight
OpenAPI 3.x component categories. -/
inductive ComponentType where
  | schemas | headers | parameters | responses
  | requestBodies | securitySchemes | links | callbacks
  deriving DecidableEq, Repr

namespace ComponentType

/-- The `.value` string of each enum member. -/
def value : ComponentType → String
  | .schemas => "schemas"
  | .headers => "headers"
  | .parameters => "parameters"
  | .responses => "responses"
  | .requestBodies => "requestBodies"
  | .securitySchemes => "securitySchemes"
  | .links => "links"
  | .callbacks => "callbacks"

/-- Python `ComponentType(type_str)`: the reverse lookup used by
`from_ref_path`, `None` on an unknown category string. -/
def ofString : String → Option ComponentType
  | "schemas" => some .schemas
  | "headers" => some .headers
  | "parameters" => some .parameters
  | "responses" => some .responses
  | "requestBodies" => some .requestBodies
  | "securitySchemes" => some .securitySchemes
  | "links" => some .links
  | "callbacks" => some .callbacks
  | _ => none

/-- List of all eight categories, in declaration order. -/
def all : List ComponentType :=
  [.schemas, .headers, .parameters, .responses,
   .requestBodies, .securitySchemes, .links, .callbacks]

end ComponentType

/-- `ComponentType.from_ref_path` (`models.py`): parse the category out of a
`$ref` path, `None` unless it has the `#/components/<category>/<name...>`
shape with a known category. -/
def fromRefPath (refPath : String) : Option ComponentType :=
  if pyStartsWith refPath "#/components/" then
    let parts := pySplit refPath '/'
    if parts.length < 4 then none
    else ComponentType.ofString (parts.getD 2 "")
  else none

/-- `ReferenceResolver.parse_component_ref` (`resolver.py`): parse a `$ref`
string into `(category, name)`; `None` for external/malformed refs.  The
queue in the source holds raw values taken from `obj["$ref"]`, so the Lean
queue holds `JValue`s and non-strings parse to `none`. -/
def parseComponentRef (ref : JValue) : Option (ComponentType × String) :=
  match ref with
  | .str refString =>
      if pyStartsWith refString "#/components/" then
        let parts := pySplit refString '/'
        if parts.length < 4 then none
        else
          let componentName := pyJoin "/" (parts.drop 3)
          match fromRefPath refString with
          | none => none
          | some componentType => some (componentType, componentName)
      else none
  | _ => none

/-- `ResolvedComponents` (`models.py`): one insertion-ordered mapping per
component category. -/
structure Resolved where
  schemas : List (String × JValue) := []
  headers : List (String × JValue) := []
  parameters : List (String × JValue) := []
  responses : List (String × JValue) := []
  requestBodies : List (String × JValue) := []
  securitySchemes : List (String × JValue) := []
  links : List (String × JValue) := []
  callbacks : List (String × JValue) := []

namespace Resolved

/-- Category accessor (the dynamic `getattr` dispatch of the source,
reified as a closed switch). -/
def get (r : Resolved) : ComponentType → List (String × JValue)
  | .schemas => r.schemas
  | .headers => r.headers
  | .parameters => r.parameters
  | .responses => r.responses
  | .requestBodies => r.requestBodies
  | .securitySchemes => r.securitySchemes
  | .links => r.links
  | .callbacks => r.callbacks

/-- `ResolvedComponents.add`: Python dict assignment into the category's
mapping. -/
def add (r : Resolved) (ct : ComponentType) (name : String) (defn : JValue) : Resolved :=
  match ct with
  | .schemas => { r with schemas := setKey r.schemas name defn }
  | .headers => { r with headers := setKey r.headers name defn }
  | .parameters => { r with parameters := setKey r.parameters name defn }
  | .responses => { r with responses := setKey r.responses name defn }
  | .requestBodies => { r with requestBodies := setKey r.requestBodies name defn }
  | .securitySchemes => { r with securitySchemes := setKey r.securitySchemes name defn }
  | .links => { r with links := setKey r.links name defn }
  | .callbacks => { r with callbacks := setKey r.callbacks name defn }

/-- `ResolvedComponents.to_components_dict`: assemble the output
`components` mapping, emitting only non-empty category sections. -/
def toComponentsDict (r : Resolved) : List (String × JValue) :=
  ([("schemas", r.schemas), ("headers", r.headers), ("parameters", r.parameters),
    ("responses", r.responses), ("requestBodies", r.requestBodies),
    ("securitySchemes", r.securitySchemes), ("links", r.links),
    ("callbacks", r.callbacks)].filter (fun p => !p.2.isEmpty)).map
    (fun p => (p.1, JValue.obj p.2))

/-- `ResolvedComponents.is_empty`. -/
def isEmptyR (r : Resolved) : Bool :=
  r.schemas.isEmpty && r.headers.isEmpty && r.parameters.isEmpty &&
  r.responses.isEmpty && r.requestBodies.isEmpty && r.securitySchemes.isEmpty &&
  r.links.isEmpty && r.callbacks.isEmpty

end Resolved

mutual

/-- `ReferenceResolver._scan_for_refs` (`resolver.py`), as a pure function
returning the references appended to the queue, in append order.
`scanV` handles one value; the queue entries are the raw `obj["$ref"]`
values. -/
def scanV : JValue → List JValue
  | .obj kvs =>
      (match lookupKV kvs "$ref" with
       | some r => [r]
       | none => []) ++ scanKVs kvs
  | .arr xs => scanArr xs
  | _ => []

/-- The `for key, value in obj.items()` loop of `_scan_for_refs`, with the
explicit `headers` special case. -/
def scanKVs : List (String × JValue) → List JValue
  | [] => []
  | (k, v) :: rest =>
      (if k = "headers" then
        match v with
        | .obj hkvs => scanHeaders hkvs
        | _ => []
      else []) ++ scanV v ++ scanKVs rest

/-- The `headers` special case: each header definition that is a dict with a
direct `$ref` contributes that ref; other dict header definitions are
scanned recursively. -/
def scanHeaders : List (String × JValue) → List JValue
  | [] => []
  | (_, hv) :: rest =>
      (match hv with
       | .obj hkvs =>
          match lookupKV hkvs "$ref" with
          | some r => [r]
          | none => scanV (.obj hkvs)
       | _ => []) ++ scanHeaders rest

def scanArr : List JValue → List JValue
  | [] => []
  | x :: xs => scanV x ++ scanArr xs

end

/-- The category sections captured by `ReferenceResolver.__init__`:
`doc.get("components", {}).get(ct.value, {})`. -/
def getSection (doc : JValue) (ct : ComponentType) : List (String × JValue) :=
  match jGet doc "components" with
  | some (.obj cs) =>
      match lookupKV cs ct.value with
      | some (.obj s) => s
      | _ => []
  | _ => []

/-- `ReferenceResolver.get_component`: look up a definition by category and
name, `None` when absent. -/
def getComponent (doc : JValue) (ct : ComponentType) (name : String) : Option JValue :=
  lookupKV (getSection doc ct) name

/-- A visited-set entry: the `(component_type.value, component_name)` pair of
the source, with the category kept as the enum (its `value` string is
injective). -/
abbrev CKey := ComponentType × String

/-- All `(category, name)` pairs present in the document's `components`
section: the finite universe the termination argument ranges over. -/
def docKeys (doc : JValue) : List CKey :=
  ComponentType.all.flatMap (fun ct => (getSection doc ct).map (fun p => (ct, p.1)))

/-- Total number of references scanned out of all component definitions of
the document: an upper bound on how much any single BFS step can grow the
queue. -/
def docRefBound (doc : JValue) : Nat :=
  (ComponentType.all.map
    (fun ct => ((getSection doc ct).map (fun p => (scanV p.2).length)).sum)).sum

theorem lookupKV_mem {s : List (String × JValue)} {k : String} {v : JValue}
    (h : lookupKV s k = some v) : (k, v) ∈ s := by
  induction s with
  | nil => simp [lookupKV] at h
  | cons p rest ih =>
      obtain ⟨a, b⟩ := p
      simp only [lookupKV] at h
      by_cases hak : a = k
      · subst hak
        rw [if_pos rfl] at h
        obtain rfl : b = v := by injection h
        exact List.mem_cons_self _ _
      · rw [if_neg hak] at h
        exact List.mem_cons_of_mem _ (ih h)

theorem mem_componentType_all (ct : ComponentType) : ct ∈ ComponentType.all := by
  cases ct <;> simp [ComponentType.all]

theorem getComponent_mem_docKeys {doc : JValue} {ct : ComponentType} {name : String}
    {c : JValue} (h : getComponent doc ct name = some c) : (ct, name) ∈ docKeys doc := by
  unfold docKeys
  rw [List.mem_flatMap]
  refine ⟨ct, mem_componentType_all ct, ?_⟩
  exact List.mem_map.mpr ⟨(name, c), lookupKV_mem h, rfl⟩

theorem scanV_length_le_docRefBound {doc : JValue} {ct : ComponentType} {name : String}
    {c : JValue} (h : getComponent doc ct name = some c) :
    (scanV c).length ≤ docRefBound doc := by
  have hmem : (name, c) ∈ getSection doc ct := lookupKV_mem h
  have h1 : (scanV c).length ≤ ((getSection doc ct).map (fun p => (scanV p.2).length)).sum :=
    List.le_sum_of_mem (List.mem_map.mpr ⟨(name, c), hmem, rfl⟩)
  have h2 : ((getSection doc ct).map (fun p => (scanV p.2).length)).sum ≤ docRefBound doc :=
    List.le_sum_of_mem (List.mem_map.mpr ⟨ct, mem_componentType_all ct, rfl⟩)
  exact le_trans h1 h2

/-- Number of universe keys not yet visited: the quantity the BFS strictly
shrinks whenever it expands a component. -/
def unvisitedCount (doc : JValue) (visited : List CKey) : Nat :=
  (docKeys doc).countP (fun k => decide (k ∉ visited))

theorem unvisitedCount_cons_le (doc : JValue) (visited : List CKey) (k : CKey) :
    unvisitedCount doc (k :: visited) ≤ unvisitedCount doc visited := by
  unfold unvisitedCount
  apply List.countP_mono_left
  intro a _ h
  have h' : a ∉ k :: visited := of_decide_eq_true h
  exact decide_eq_true (fun hav => h' (List.mem_cons_of_mem _ hav))

theorem countP_lt_of_false_at {α : Type} (p q : α → Bool)
    (hpq : ∀ x, p x = true → q x = true) :
    ∀ (l : List α) (k : α), k ∈ l → p k = false → q k = true →
      l.countP p < l.countP q := by
  intro l
  induction l with
  | nil => intro k hk; simp at hk
  | cons a t ih =>
      intro k hk hp hq
      rw [List.countP_cons, List.countP_cons]
      have hmono : t.countP p ≤ t.countP q := List.countP_mono_left (fun x _ => hpq x)
      rcases List.mem_cons.mp hk with heq | hkt
      · subst heq
        have e1 : (if p k = true then 1 else 0) = 0 := by rw [hp]; simp
        have e2 : (if q k = true then 1 else 0) = 1 := by rw [hq]; rfl
        rw [e1, e2]
        omega
      · have hlt := ih k hkt hp hq
        have hhead : (if p a = true then 1 else 0) ≤ (if q a = true then 1 else 0) := by
          cases hpa : p a
          · simp
          · rw [hpq a hpa]
        omega

theorem unvisitedCount_cons_lt {doc : JValue} {visited : List CKey} {k : CKey}
    (hkl : k ∈ docKeys doc) (hkv : k ∉ visited) :
    unvisitedCount doc (k :: visited) < unvisitedCount doc visited := by
  unfold unvisitedCount
  refine countP_lt_of_false_at _ _ ?_ _ k hkl ?_ ?_
  · intro x hx
    have hx' : x ∉ k :: visited := of_decide_eq_true hx
    exact decide_eq_true (fun hv2 => hx' (List.mem_cons_of_mem _ hv2))
  · exact decide_eq_false (fun h => h (List.mem_cons_self _ _))
  · exact decide_eq_true hkv

/-- The measure for the BFS loop of `resolve_all_refs`: unexpanded universe
keys weighted by the maximal queue growth, plus the queue length. -/
def bfsMeasure (doc : JValue) (visited : List CKey) (queue : List JValue) : Nat :=
  unvisitedCount doc visited * (docRefBound doc + 1) + queue.length

/-- The `while refs_to_process` BFS loop of
`ReferenceResolver.resolve_all_refs` (`resolver.py` lines 107-129), with the
local `visited` set made explicit in the result (the source returns only
`resolved`).  Termination is exactly the source's argument: each
`(category, name)` pair is expanded at most once and the universe of pairs
present in `components` is finite. -/
def bfsAux (doc : JValue) (visited : List CKey) (resolved : Resolved)
    (queue : List JValue) : List CKey × Resolved :=
  match queue with
  | [] => (visited, resolved)
  | ref :: rest =>
      match parseComponentRef ref with
      | none => bfsAux doc visited resolved rest
      | some (ct, name) =>
          if hv : (ct, name) ∈ visited then bfsAux doc visited resolved rest
          else
            match hc : getComponent doc ct name with
            | none => bfsAux doc ((ct, name) :: visited) resolved rest
            | some cdef =>
                bfsAux doc ((ct, name) :: visited) (resolved.add ct name cdef)
                  (rest ++ scanV cdef)
termination_by bfsMeasure doc visited queue
decreasing_by
  · simp only [bfsMeasure, List.length_cons]
    omega
  · have h := unvisitedCount_cons_le doc visited (ct, name)
    simp only [bfsMeasure, List.length_cons]
    have hmul := Nat.mul_le_mul_right (docRefBound doc + 1) h
    omega
  · have hklt := unvisitedCount_cons_lt (getComponent_mem_docKeys hc) hv
    have hscan := scanV_length_le_docRefBound hc
    simp only [bfsMeasure, List.length_cons, List.length_append]
    have hmul := Nat.mul_le_mul_right (docRefBound doc + 1)
      (Nat.succ_le_of_lt hklt)
    rw [Nat.succ_mul] at hmul
    omega

/-- The empty `ResolvedComponents`. -/
def Resolved.empty : Resolved := {}

/-- The `for scheme_name in security_req.keys()` inner loop of
`_resolve_security_schemes`: mark each name visited once and copy its
definition when present in `components.securitySchemes`. -/
def addSecurityNames (doc : JValue) :
    List String → List CKey → Resolved → List CKey × Resolved
  | [], visited, resolved => (visited, resolved)
  | name :: rest, visited, resolved =>
      if (ComponentType.securitySchemes, name) ∈ visited then
        addSecurityNames doc rest visited resolved
      else
        match getComponent doc .securitySchemes name with
        | some d =>
            addSecurityNames doc rest ((ComponentType.securitySchemes, name) :: visited)
              (resolved.add .securitySchemes name d)
        | none =>
            addSecurityNames doc rest ((ComponentType.securitySchemes, name) :: visited)
              resolved

/-- Scheme names of one security requirement object (`security_req.keys()`
guarded by `isinstance(security_req, dict)`). -/
def securityReqNames : JValue → List String
  | .obj kvs => keysOf kvs
  | _ => []

/-- The `for security_req in security` outer loop of
`_resolve_security_schemes`. -/
def resolveSecurityReqs (doc : JValue) :
    List JValue → List CKey → Resolved → List CKey × Resolved
  | [], visited, resolved => (visited, resolved)
  | req :: rest, visited, resolved =>
      let vr := addSecurityNames doc (securityReqNames req) visited resolved
      resolveSecurityReqs doc rest vr.1 vr.2

/-- The effective security requirement list: `operation.get("security")`,
falling back to `doc.get("security", [])` when the operation has no
`security` entry (a `null` value reads back as `None` in Python, hence also
falls back). -/
def securityOf (doc operation : JValue) : JValue :=
  match jGet operation "security" with
  | some .null => jGetD doc "security" (.arr [])
  | none => jGetD doc "security" (.arr [])
  | some s => s

/-- `ReferenceResolver._resolve_security_schemes` (`resolver.py` lines
196-238): empty (falsy) security means explicitly no security; the
requirement objects' keys are scheme names resolved by name. -/
def resolveSecuritySchemes (doc operation : JValue)
    (visited : List CKey) (resolved : Resolved) : List CKey × Resolved :=
  let security := securityOf doc operation
  if jFalsy security then (visited, resolved)
  else
    match security with
    | .arr reqs => resolveSecurityReqs doc reqs visited resolved
    | _ => (visited, resolved)

/-- The path/method lookup shared by `resolve_all_refs` and
`EndpointSlicer.extract`: `paths[path][method.lower()]`, `None` (a raised
`KeyError` in the source) when either lookup misses. -/
def endpointOf (doc : JValue) (path method : String) :
    Option (List (String × JValue) × JValue) :=
  match jGetD doc "paths" (.obj []) with
  | .obj ps =>
      match lookupKV ps path with
      | some (.obj pathItem) =>
          match lookupKV pathItem (pyLower method) with
          | some op => some (pathItem, op)
          | none => none
      | _ => none
  | _ => none

/-- `ReferenceResolver.resolve_all_refs` (`resolver.py` lines 63-130):
seed the queue from the path-level parameters and the operation, resolve
security schemes by name, then run the BFS.  `none` models the raised
`KeyError` on a missing path or method. -/
def resolveAllRefs (doc : JValue) (path method : String) : Option Resolved :=
  match endpointOf doc path method with
  | none => none
  | some (pathItem, operation) =>
      let pathParams := jGetD (.obj pathItem) "parameters" (.arr [])
      let seeds := scanV pathParams ++ scanV operation
      let vr := resolveSecuritySchemes doc operation [] Resolved.empty
      some (bfsAux doc vr.1 vr.2 seeds).2

/-- `EndpointSlicer.extract` (`slicer.py` lines 32-80): assemble the
standalone document around the single requested operation, append the
path-level parameters when present, and attach the resolved components only
when non-empty. -/
def extract (doc : JValue) (path method : String) : Option JValue :=
  match endpointOf doc path method with
  | none => none
  | some (pathItem, operation) =>
      let pathItemOut : List (String × JValue) :=
        [(pyLower method, operation)] ++
          (match lookupKV pathItem "parameters" with
           | some pv => [("parameters", pv)]
           | none => [])
      let base : List (String × JValue) :=
        [("openapi", jGetD doc "openapi" (.str "3.0.0")),
         ("info", jGetD doc "info"
            (.obj [("title", .str "Extracted"), ("version", .str "1.0.0")])),
         ("paths", .obj [(path, .obj pathItemOut)])]
      match resolveAllRefs doc path method with
      | none => none
      | some resolved =>
          let components := resolved.toComponentsDict
          some (.obj (base ++
            (if components.isEmpty then [] else [("components", .obj components)])))

/-- `ValidationResult` (`models.py`): outcome of one validation phase.
The phase enum's integer values 1-7 are used directly. -/
structure ValidationResult where
  phase : Nat
  passed : Bool
  errorMessage : Option String := none
  details : List (String × JValue) := []

/-- A failing `ValidationResult` with an error message. -/
def vFail (phase : Nat) (msg : String) : ValidationResult :=
  { phase := phase, passed := false, errorMessage := some msg }

/-- A passing `ValidationResult`. -/
def vPass (phase : Nat) : ValidationResult := { phase := phase, passed := true }

/-- `EndpointValidator._validate_file_structure` (phase 1). -/
def validateFileStructure (doc : JValue) : ValidationResult :=
  match doc with
  | .obj kvs =>
      if (lookupKV kvs "openapi").isNone then vFail 1 "Missing 'openapi' field"
      else if (lookupKV kvs "info").isNone then vFail 1 "Missing 'info' field"
      else
        match lookupKV kvs "paths" with
        | some (.obj _) => vPass 1
        | _ => vFail 1 "Missing or invalid 'paths' field"
  | _ => vFail 1 "Document is not a dictionary"

/-- The fixed method list of `_validate_operation_integrity`. -/
def methodsList : List String :=
  ["get", "post", "put", "delete", "patch", "options", "head", "trace"]

/-- The `for method in methods` loop of `_validate_operation_integrity`:
returns the first missing-responses error and whether any recognized method
was found.  An operation that is not a dict has no `responses` key. -/
def checkOpsForPath (path : String) (pathItem : List (String × JValue)) :
    List String → Bool → Option String × Bool
  | [], found => (none, found)
  | m :: rest, found =>
      match lookupKV pathItem m with
      | none => checkOpsForPath path pathItem rest found
      | some operation =>
          let bad : Bool :=
            match operation with
            | .obj okvs =>
                match lookupKV okvs "responses" with
                | none => true
                | some r => jFalsy r
            | _ => true
          if bad then
            (some ("Operation '" ++ m ++ " " ++ path ++ "' missing 'responses' field"), true)
          else checkOpsForPath path pathItem rest true

/-- The `for path, path_item in paths.items()` loop of
`_validate_operation_integrity`: first failure, in document order. -/
def checkPathItems : List (String × JValue) → Option ValidationResult
  | [] => none
  | (path, pitem) :: rest =>
      match pitem with
      | .obj pkvs =>
          match checkOpsForPath path pkvs methodsList false with
          | (some msg, _) => some (vFail 2 msg)
          | (none, true) => checkPathItems rest
          | (none, false) =>
              some (vFail 2 ("Path '" ++ path ++ "' has no valid HTTP methods"))
      | _ => some (vFail 2 ("Path '" ++ path ++ "' is not a valid path item object"))

/-- `EndpointValidator._validate_operation_integrity` (phase 2).  A truthy
non-dict `paths` value cannot occur after phase 1 and is treated as
passing. -/
def validateOperationIntegrity (doc : JValue) : ValidationResult :=
  let paths := jGetD doc "paths" (.obj [])
  if jFalsy paths then vFail 2 "No paths defined in document"
  else
    match paths with
    | .obj ps => (checkPathItems ps).getD (vPass 2)
    | _ => vPass 2

/-- The `for code, response in responses.items()` loop of
`_validate_response_integrity`.  Response-code keys are strings by
construction of `JValue.obj`, so the source's code-is-string check cannot
fail in the model. -/
def checkResponseEntries : List (String × JValue) → Option String
  | [] => none
  | (code, response) :: rest =>
      match response with
      | .obj rkvs =>
          if (lookupKV rkvs "description").isNone then
            some ("Response " ++ code ++ " missing 'description' field")
          else checkResponseEntries rest
      | _ => some ("Response " ++ code ++ " is not an object")

/-- The `for method_name, operation in path_item.items()` loop of
`_validate_response_integrity`. -/
def checkOperationsResponses (path : String) : List (String × JValue) → Option String
  | [] => none
  | (mname, op) :: rest =>
      match op with
      | .obj okvs =>
          match lookupKV okvs "responses" with
          | some resps =>
              if jFalsy resps then
                some ("No responses defined for " ++ pyUpper mname ++ " " ++ path)
              else
                match resps with
                | .obj rs =>
                    match checkResponseEntries rs with
                    | some e => some e
                    | none => checkOperationsResponses path rest
                | _ => checkOperationsResponses path rest
          | none => checkOperationsResponses path rest
      | _ => checkOperationsResponses path rest

/-- The outer paths loop of `_validate_response_integrity`. -/
def checkPathsResponses : List (String × JValue) → Option String
  | [] => none
  | (path, pitem) :: rest =>
      match pitem with
      | .obj pkvs =>
          match checkOperationsResponses path pkvs with
          | some e => some e
          | none => checkPathsResponses rest
      | _ => checkPathsResponses rest

/-- `EndpointValidator._validate_response_integrity` (phase 3). -/
def validateResponseIntegrity (doc : JValue) : ValidationResult :=
  match jGetD doc "paths" (.obj []) with
  | .obj ps =>
      match checkPathsResponses ps with
      | some e => vFail 3 e
      | none => vPass 3
  | _ => vPass 3

/-- The `component_lookups.get(comp_type, {})` table of
`_validate_reference_resolution`: a known category's section of the
document under validation, `{}` for the eight unknown-category case. -/
def sectionByName (doc : JValue) (tname : String) : List (String × JValue) :=
  match ComponentType.ofString tname with
  | some ct => getSection doc ct
  | none => []

/-- One `$ref` check of `find_unresolved_refs`: an internal component ref
whose `(category, name)` is absent from the document's own components
section yields an error string. -/
def refError (doc : JValue) (ref : JValue) : Option String :=
  match ref with
  | .str r =>
      if pyStartsWith r "#/components/" then
        let parts := pySplit r '/'
        if parts.length ≥ 4 then
          let compType := parts.getD 2 ""
          let compName := pyJoin "/" (parts.drop 3)
          if (lookupKV (sectionByName doc compType) compName).isNone then
            some ("Reference '" ++ r ++ "' not found in components." ++ compType)
          else none
        else none
      else none
  | _ => none

mutual

/-- The recursive `find_unresolved_refs` of
`_validate_reference_resolution`: first unresolved ref, pre-order. -/
def findUnresolved (doc : JValue) : JValue → Option String
  | .obj kvs =>
      (match lookupKV kvs "$ref" with
       | some r => refError doc r
       | none => none).orElse (fun _ => findUnresolvedKVs doc kvs)
  | .arr xs => findUnresolvedArr doc xs
  | _ => none

def findUnresolvedKVs (doc : JValue) : List (String × JValue) → Option String
  | [] => none
  | (_, v) :: rest => (findUnresolved doc v).orElse (fun _ => findUnresolvedKVs doc rest)

def findUnresolvedArr (doc : JValue) : List JValue → Option String
  | [] => none
  | x :: xs => (findUnresolved doc x).orElse (fun _ => findUnresolvedArr doc xs)

end

/-- `EndpointValidator._validate_reference_resolution` (phase 4): check
`paths`, then the components themselves. -/
def validateReferenceResolution (doc : JValue) : ValidationResult :=
  match findUnresolved doc (jGetD doc "paths" (.obj [])) with
  | some e => vFail 4 e
  | none =>
      match findUnresolved doc (jGetD doc "components" (.obj [])) with
      | some e => vFail 4 e
      | none => vPass 4

/-- `EndpointValidator._validate_component_completeness` (phase 5): an
unconditional pass-through in the source. -/
def validateComponentCompleteness : ValidationResult := vPass 5

mutual

/-- Structural equality on trees, used for the Python set semantics of
`_collect_all_refs`. -/
def beqJ : JValue → JValue → Bool
  | .null, .null => true
  | .bool a, .bool b => a = b
  | .num a, .num b => a = b
  | .str a, .str b => a = b
  | .arr xs, .arr ys => beqArr xs ys
  | .obj xs, .obj ys => beqObj xs ys
  | _, _ => false

def beqArr : List JValue → List JValue → Bool
  | [], [] => true
  | x :: xs, y :: ys => beqJ x y && beqArr xs ys
  | _, _ => false

def beqObj : List (String × JValue) → List (String × JValue) → Bool
  | [], [] => true
  | (k, v) :: xs, (l, w) :: ys => k = l && beqJ v w && beqObj xs ys
  | _, _ => false

end

/-- Value membership in a list, via `beqJ`. -/
def memJ (x : JValue) : List JValue → Bool
  | [] => false
  | y :: ys => beqJ x y || memJ x ys

mutual

/-- `EndpointValidator._collect_all_refs`: every `$ref` value in the tree.
The source accumulates into a Python set; the model keeps first-insertion
order (the set's iteration order is unspecified, which only affects the
diagnostic message, not the pass/fail outcome). -/
def collectRefs (acc : List JValue) : JValue → List JValue
  | .obj kvs =>
      let acc1 :=
        match lookupKV kvs "$ref" with
        | some r => if memJ r acc then acc else acc ++ [r]
        | none => acc
      collectRefsKVs acc1 kvs
  | .arr xs => collectRefsArr acc xs
  | _ => acc

def collectRefsKVs (acc : List (JValue)) : List (String × JValue) → List JValue
  | [] => acc
  | (_, v) :: rest => collectRefsKVs (collectRefs acc v) rest

def collectRefsArr (acc : List JValue) : List JValue → List JValue
  | [] => acc
  | x :: xs => collectRefsArr (collectRefs acc x) xs

end

/-- `EndpointValidator._check_component_exists`: does the `$ref` resolve in
the given document?  Non-component refs are assumed valid.  Here the
category is looked up as a raw key of `components` (unlike phase 4's
eight-entry table).  A non-string ref cannot arise from well-formed input
and is treated as valid. -/
def checkComponentExists (ref : JValue) (doc : JValue) : Bool :=
  match ref with
  | .str r =>
      if !(pyStartsWith r "#/components/") then true
      else
        let parts := pySplit r '/'
        if parts.length < 4 then false
        else
          let compType := parts.getD 2 ""
          let compName := pyJoin "/" (parts.drop 3)
          match jGet doc "components" with
          | some (.obj cs) =>
              match lookupKV cs compType with
              | some (.obj s) => (lookupKV s compName).isSome
              | _ => false
          | _ => false
  | _ => true

/-- The `for method in path_item.keys()` loop of
`_validate_payload_equivalence` (path-level `parameters` is skipped). -/
def checkMethodsInOriginal (path : String) (origItem : JValue) :
    List String → Option String
  | [] => none
  | m :: rest =>
      if m = "parameters" then checkMethodsInOriginal path origItem rest
      else
        let present : Bool :=
          match origItem with
          | .obj okvs => (lookupKV okvs m).isSome
          | _ => false
        if present then checkMethodsInOriginal path origItem rest
        else some ("Method '" ++ m ++ "' for path '" ++ path ++ "' not found in original")

/-- The `for path, path_item in extracted_paths.items()` loop of
`_validate_payload_equivalence`. -/
def checkPathsEquivalence (origPaths : List (String × JValue)) :
    List (String × JValue) → Option String
  | [] => none
  | (path, pitem) :: rest =>
      match lookupKV origPaths path with
      | none => some ("Path '" ++ path ++ "' not found in original document")
      | some origItem =>
          let ms := match pitem with | .obj pkvs => keysOf pkvs | _ => []
          match checkMethodsInOriginal path origItem ms with
          | some e => some e
          | none => checkPathsEquivalence origPaths rest

/-- Missing-refs diagnostic message of `_validate_payload_equivalence`. -/
def missingRefsMessage (missing : List JValue) : String :=
  "Missing components in extracted document: " ++
    String.intercalate ", "
      ((missing.take 5).map (fun v => match v with | .str s => s | _ => "")) ++
    (if missing.length > 5 then " and " ++ toString (missing.length - 5) ++ " more" else "")

/-- `EndpointValidator._validate_payload_equivalence` (phase 6): skipped
with an automatic pass when the original document is falsy (`None` or an
empty mapping); otherwise every collected `$ref` must exist in the
extracted document itself and every extracted path/method must exist in the
original. -/
def validatePayloadEquivalence (doc origDoc : JValue) : ValidationResult :=
  if jFalsy origDoc then vPass 6
  else
    let refs := collectRefs [] doc
    let missing := refs.filter (fun r => !checkComponentExists r doc)
    if !missing.isEmpty then
      { phase := 6, passed := false,
        errorMessage := some (missingRefsMessage missing),
        details := [("missing_refs", .arr missing)] }
    else
      let extractedPaths :=
        match jGetD doc "paths" (.obj []) with | .obj l => l | _ => []
      let origPaths :=
        match jGetD origDoc "paths" (.obj []) with | .obj l => l | _ => []
      match checkPathsEquivalence origPaths extractedPaths with
      | some e => vFail 6 e
      | none => vPass 6

/-- `EndpointValidator._validate_version` (phase 7): the `openapi` field
must be a string splitting on `.` into at least two parts, with major `3`
and minor `0` or `1`. -/
def validateVersion (doc : JValue) : ValidationResult :=
  match jGetD doc "openapi" (.str "") with
  | .str openapiField =>
      let parts := pySplit openapiField '.'
      if parts.length < 2 then
        vFail 7 ("Invalid OAS version format: " ++ openapiField)
      else
        let major := parts.getD 0 ""
        let minor := parts.getD 1 ""
        if major = "3" && (minor = "0" || minor = "1") then vPass 7
        else
          vFail 7 ("Unsupported OAS version: " ++ openapiField ++ " (must be 3.0.x or 3.1.x)")
  | _ => vFail 7 "Invalid 'openapi' field format"

/-- `EndpointValidator.validate` (`validator.py` lines 35-82): the 7-phase
checkpoint pipeline, returning at the first phase whose result has
`passed=False`, else the phase-7 result.  `self.version` is never consulted
by any phase and is omitted; a missing original document is the falsy
`JValue.null`. -/
def validate (doc origDoc : JValue) : ValidationResult :=
  let r1 := validateFileStructure doc
  if !r1.passed then r1
  else
    let r2 := validateOperationIntegrity doc
    if !r2.passed then r2
    else
      let r3 := validateResponseIntegrity doc
      if !r3.passed then r3
      else
        let r4 := validateReferenceResolution doc
        if !r4.passed then r4
        else
          let r5 := validateComponentCompleteness
          if !r5.passed then r5
          else
            let r6 := validatePayloadEquivalence doc origDoc
            if !r6.passed then r6
            else validateVersion doc

/-- The `nullable: true` node rewrite of
`VersionConverter._apply_nullable_to_type_array` (`converter.py` lines
179-186): merge `"null"` into the `type` (defaulting to `"object"`), then
delete `nullable`. -/
def nullable30to31Node (kvs : List (String × JValue)) : List (String × JValue) :=
  match lookupKV kvs "nullable" with
  | some (.bool true) =>
      let currentType := (lookupKV kvs "type").getD (.str "object")
      let kvs1 :=
        match currentType with
        | .str t => setKey kvs "type" (.arr [.str t, .str "null"])
        | .arr ts =>
            if ts.any (fun t => beqJ t (.str "null")) then kvs
            else setKey kvs "type" (.arr (ts ++ [.str "null"]))
        | _ => kvs
      delKey kvs1 "nullable"
  | _ => kvs

/-- The `type` array node rewrite of
`VersionConverter._apply_type_array_to_nullable` (`converter.py` lines
219-223): a `type` list containing `"null"` becomes the first non-null
member (kept as-is when all members are null) plus `nullable: true`. -/
def typeArray31to30Node (kvs : List (String × JValue)) : List (String × JValue) :=
  match lookupKV kvs "type" with
  | some (.arr ts) =>
      if ts.any (fun t => beqJ t (.str "null")) then
        let nonNull := ts.filter (fun t => !beqJ t (.str "null"))
        let kvs1 :=
          match nonNull with
          | [] => kvs
          | t0 :: _ => setKey kvs "type" t0
        setKey kvs1 "nullable" (.bool true)
      else kvs
  | _ => kvs

mutual

/-- The recursive `process_schema` of `_apply_nullable_to_type_array`.  The
source rewrites the node in place and then recurses into `properties`,
`items`, `allOf`, `oneOf`, `anyOf`; the node rewrite touches only the
`type`/`nullable` entries, which the child recursion never touches, so
recursing first and rewriting the node afterwards (done here so that the
recursion is structural) yields the identical dict. -/
def processSchema30to31 : JValue → JValue
  | .obj kvs => .obj (nullable30to31Node (mapChildren30 kvs))
  | v => v

def mapChildren30 : List (String × JValue) → List (String × JValue)
  | [] => []
  | (k, v) :: rest => (k, childRewrite30 k v) :: mapChildren30 rest

/-- One entry of the `for key in [...]` child loop of the 3.0→3.1
`process_schema`: `properties` maps its member values; the other four keys
process a dict directly or a list elementwise. -/
def childRewrite30 (k : String) (v : JValue) : JValue :=
  if k = "properties" then
    match v with
    | .obj ps => .obj (mapValues30 ps)
    | .arr xs => .arr (mapList30 xs)
    | _ => v
  else if k = "items" || k = "allOf" || k = "oneOf" || k = "anyOf" then
    match v with
    | .obj okvs => .obj (nullable30to31Node (mapChildren30 okvs))
    | .arr xs => .arr (mapList30 xs)
    | _ => v
  else v

def mapValues30 : List (String × JValue) → List (String × JValue)
  | [] => []
  | (k, v) :: rest => (k, processSchema30to31 v) :: mapValues30 rest

def mapList30 : List JValue → List JValue
  | [] => []
  | x :: xs => processSchema30to31 x :: mapList30 xs

end

mutual

/-- The recursive `process_schema` of `_apply_type_array_to_nullable`, with
the same child-key loop as the 3.0→3.1 direction (see
`processSchema30to31` for the node/children ordering note). -/
def processSchema31to30 : JValue → JValue
  | .obj kvs => .obj (typeArray31to30Node (mapChildren31 kvs))
  | v => v

def mapChildren31 : List (String × JValue) → List (String × JValue)
  | [] => []
  | (k, v) :: rest => (k, childRewrite31 k v) :: mapChildren31 rest

def childRewrite31 (k : String) (v : JValue) : JValue :=
  if k = "properties" then
    match v with
    | .obj ps => .obj (mapValues31 ps)
    | .arr xs => .arr (mapList31 xs)
    | _ => v
  else if k = "items" || k = "allOf" || k = "oneOf" || k = "anyOf" then
    match v with
    | .obj okvs => .obj (typeArray31to30Node (mapChildren31 okvs))
    | .arr xs => .arr (mapList31 xs)
    | _ => v
  else v

def mapValues31 : List (String × JValue) → List (String × JValue)
  | [] => []
  | (k, v) :: rest => (k, processSchema31to30 v) :: mapValues31 rest

def mapList31 : List JValue → List JValue
  | [] => []
  | x :: xs => processSchema31to30 x :: mapList31 xs

end

/-- Apply a schema transformation to every value of
`doc["components"]["schemas"]` (the shared doc-walk shape of the four
schema-rewriting passes of `converter.py`). -/
def updateSchemasSection (doc : JValue) (f : JValue → JValue) : JValue :=
  match doc with
  | .obj kvs =>
      match lookupKV kvs "components" with
      | some (.obj cs) =>
          match lookupKV cs "schemas" with
          | some (.obj ss) =>
              .obj (setKey kvs "components"
                (.obj (setKey cs "schemas" (.obj (ss.map (fun p => (p.1, f p.2)))))))
          | _ => doc
      | _ => doc
  | _ => doc

/-- The `for parameter in operation.get("parameters", [])` loop: rewrite
each parameter's `schema` when present. -/
def updateParamList (f : JValue → JValue) : JValue → JValue
  | .arr params => .arr (params.map (fun param =>
      match param with
      | .obj pkvs =>
          match lookupKV pkvs "schema" with
          | some s => .obj (setKey pkvs "schema" (f s))
          | none => .obj pkvs
      | v => v))
  | v => v

/-- One path-item value of the parameter walk: dict operations get their
`parameters` rewritten. -/
def updateOperationParams (f : JValue → JValue) : JValue → JValue
  | .obj okvs =>
      match lookupKV okvs "parameters" with
      | some pv => .obj (setKey okvs "parameters" (updateParamList f pv))
      | none => .obj okvs
  | v => v

/-- The `if "paths" in doc` walk of the nullable/type-array passes: rewrite
the nested parameter schemas of every operation of every path item. -/
def updateParamSchemas (doc : JValue) (f : JValue → JValue) : JValue :=
  match doc with
  | .obj kvs =>
      match lookupKV kvs "paths" with
      | some (.obj ps) =>
          .obj (setKey kvs "paths" (.obj (ps.map (fun p =>
            (p.1,
             match p.2 with
             | .obj pkvs => .obj (pkvs.map (fun q => (q.1, updateOperationParams f q.2)))
             | v => v)))))
      | _ => doc
  | _ => doc

/-- `VersionConverter._apply_nullable_to_type_array` (`converter.py` lines
173-211): rewrite `components.schemas` and all nested parameter schemas. -/
def applyNullableToTypeArray (doc : JValue) : JValue :=
  updateParamSchemas (updateSchemasSection doc processSchema30to31) processSchema30to31

/-- `VersionConverter._apply_type_array_to_nullable` (`converter.py` lines
213-247). -/
def applyTypeArrayToNullable (doc : JValue) : JValue :=
  updateParamSchemas (updateSchemasSection doc processSchema31to30) processSchema31to30

/-- The `mapping[schema_name] = item["$ref"]` loop of
`_apply_discriminator_property_to_mapping`: synthesize a mapping from the
`oneOf` members' refs, keyed by the trailing path segment. -/
def buildDiscMapping : List JValue → List (String × JValue) → List (String × JValue)
  | [], acc => acc
  | item :: rest, acc =>
      match item with
      | .obj ikvs =>
          match lookupKV ikvs "$ref" with
          | some (.str r) =>
              let parts := pySplit r '/'
              buildDiscMapping rest (setKey acc (parts.getLastD "") (.str r))
          | _ => buildDiscMapping rest acc
      | _ => buildDiscMapping rest acc

/-- Per-schema body of `_apply_discriminator_property_to_mapping`
(`converter.py` lines 249-266). -/
def disc30to31Schema : JValue → JValue
  | .obj skvs =>
      match lookupKV skvs "discriminator" with
      | some (.obj dkvs) =>
          if (lookupKV dkvs "propertyName").isSome then
            let mapping :=
              match lookupKV skvs "oneOf" with
              | some (.arr items) => buildDiscMapping items []
              | _ => []
            if mapping.isEmpty then .obj skvs
            else .obj (setKey skvs "discriminator" (.obj (setKey dkvs "mapping" (.obj mapping))))
          else .obj skvs
      | _ => .obj skvs
  | v => v

/-- `VersionConverter._apply_discriminator_property_to_mapping`. -/
def applyDiscriminatorPropertyToMapping (doc : JValue) : JValue :=
  updateSchemasSection doc disc30to31Schema

/-- Per-schema body of `_apply_discriminator_mapping_to_property`
(`converter.py` lines 268-281). -/
def disc31to30Schema : JValue → JValue
  | .obj skvs =>
      match lookupKV skvs "discriminator" with
      | some (.obj dkvs) =>
          if (lookupKV dkvs "mapping").isSome then
            let dkvs1 :=
              if (lookupKV dkvs "propertyName").isSome then dkvs
              else setKey dkvs "propertyName" (.str "type")
            .obj (setKey skvs "discriminator" (.obj (delKey dkvs1 "mapping")))
          else .obj skvs
      | _ => .obj skvs
  | v => v

/-- `VersionConverter._apply_discriminator_mapping_to_property`. -/
def applyDiscriminatorMappingToProperty (doc : JValue) : JValue :=
  updateSchemasSection doc disc31to30Schema

/-- The `v.get("type") == "mutualTLS"` test of `_remove_mutual_tls`. -/
def isMutualTls : JValue → Bool
  | .obj vkvs =>
      match lookupKV vkvs "type" with
      | some (.str s) => s = "mutualTLS"
      | _ => false
  | _ => false

/-- `VersionConverter._remove_mutual_tls` (`converter.py` lines 283-292):
drop `mutualTLS` security schemes, reporting whether any was removed. -/
def removeMutualTls (doc : JValue) : JValue × Bool :=
  match doc with
  | .obj kvs =>
      match lookupKV kvs "components" with
      | some (.obj cs) =>
          match lookupKV cs "securitySchemes" with
          | some (.obj ss) =>
              (.obj (setKey kvs "components"
                (.obj (setKey cs "securitySchemes"
                  (.obj (ss.filter (fun p => !isMutualTls p.2)))))),
               ss.any (fun p => isMutualTls p.2))
          | _ => (doc, false)
      | _ => (doc, false)
  | _ => (doc, false)

/-- `VersionConverter._move_license_identifier` (`converter.py` lines
294-305). -/
def moveLicenseIdentifier (doc : JValue) : JValue × Bool :=
  match doc with
  | .obj kvs =>
      match lookupKV kvs "info" with
      | some (.obj ikvs) =>
          match lookupKV ikvs "license" with
          | some (.obj lkvs) =>
              match lookupKV lkvs "identifier" with
              | some idv =>
                  let lkvs1 :=
                    if (lookupKV lkvs "name").isSome then lkvs
                    else setKey lkvs "name" idv
                  (.obj (setKey kvs "info"
                    (.obj (setKey ikvs "license" (.obj (delKey lkvs1 "identifier"))))), true)
              | none => (doc, false)
          | _ => (doc, false)
      | _ => (doc, false)
  | _ => (doc, false)

mutual

/-- The recursive `has_conditionals` of
`_check_json_schema_conditionals`. -/
def hasConditionals : JValue → Bool
  | .obj kvs =>
      (lookupKV kvs "if").isSome || (lookupKV kvs "then").isSome ||
        (lookupKV kvs "else").isSome || hasConditionalsKVs kvs
  | .arr xs => hasConditionalsArr xs
  | _ => false

def hasConditionalsKVs : List (String × JValue) → Bool
  | [] => false
  | (_, v) :: rest => hasConditionals v || hasConditionalsKVs rest

def hasConditionalsArr : List JValue → Bool
  | [] => false
  | x :: xs => hasConditionals x || hasConditionalsArr xs

end

/-- `VersionConverter._check_json_schema_conditionals` (`converter.py`
lines 307-328): conditionals anywhere under `components.schemas`. -/
def checkJsonSchemaConditionals (doc : JValue) : Bool :=
  match jGet doc "components" with
  | some (.obj cs) =>
      match lookupKV cs "schemas" with
      | some (.obj ss) => ss.any (fun p => hasConditionals p.2)
      | _ => false
  | _ => false

/-- `VersionConversionRequest` (`models.py`), restricted to the fields the
conversion logic consults (`transformation_rules` is loaded but the convert
path applies the built-in fixed sequence; `preserve_examples` is
informational). -/
structure ConversionRequest where
  sourceVersion : String
  targetVersion : String
  strictMode : Bool := false

/-- `ConversionResult` (`models.py`); `elapsed_time` is wall-clock data and
is not modelled. -/
structure ConversionResult where
  success : Bool
  sourceVersion : String
  targetVersion : String
  convertedDocument : Option JValue := none
  warnings : List String := []
  errors : List String := []

/-- `VersionConverter._convert_30_to_31` (`converter.py` lines 130-139):
the two schema passes; this direction accumulates no warnings or errors. -/
def convert30to31 (doc : JValue) : JValue × List String × List String :=
  (applyDiscriminatorPropertyToMapping (applyNullableToTypeArray doc), [], [])

/-- `VersionConverter._convert_31_to_30` (`converter.py` lines 141-171):
schema passes, webhook/mutualTLS/license cleanup with warnings, and the
conditional-schema check that is an error in strict mode. -/
def convert31to30 (strictMode : Bool) (doc : JValue) :
    JValue × List String × List String :=
  let d1 := applyDiscriminatorMappingToProperty (applyTypeArrayToNullable doc)
  let webhooks :=
    match d1 with
    | .obj kvs =>
        if (lookupKV kvs "webhooks").isSome then (JValue.obj (delKey kvs "webhooks"), true)
        else (d1, false)
    | _ => (d1, false)
  let tls := removeMutualTls webhooks.1
  let lic := moveLicenseIdentifier tls.1
  let hasCond := checkJsonSchemaConditionals lic.1
  let warnings :=
    (if webhooks.2 then ["Webhooks removed (not supported in 3.0.x)"] else []) ++
    (if tls.2 then ["mutualTLS security scheme removed (not supported in 3.0.x)"] else []) ++
    (if lic.2 then ["license.identifier moved to license.name"] else []) ++
    (if hasCond && !strictMode then
      ["JSON Schema conditionals found; may not convert properly to 3.0.x"] else [])
  let errors :=
    if hasCond && strictMode then
      ["JSON Schema conditionals (if/then/else) not supported in 3.0.x"] else []
  (lic.1, warnings, errors)

/-- `VersionConverter._validate_source_version` (`converter.py` lines
330-337). -/
def validateSourceVersion (req : ConversionRequest) (document : JValue) : Bool :=
  let v := match jGetD document "openapi" (.str "") with | .str s => s | _ => ""
  if req.sourceVersion = "3.0.x" then pyStartsWith v "3.0."
  else if req.sourceVersion = "3.1.x" then pyStartsWith v "3.1."
  else false

/-- `VersionConverter._update_version` (`converter.py` lines 339-344). -/
def updateVersion (document : JValue) (targetVersion : String) : JValue :=
  match document with
  | .obj kvs =>
      if targetVersion = "3.0.x" then .obj (setKey kvs "openapi" (.str "3.0.0"))
      else if targetVersion = "3.1.x" then .obj (setKey kvs "openapi" (.str "3.1.0"))
      else document
  | v => v

/-- Top-level-keyword conditional test of `validate_converted_document`
(only direct `if`/`then`/`else` keys of the schema, unlike the recursive
`_check_json_schema_conditionals`). -/
def hasTopLevelConditional (skvs : List (String × JValue)) : Bool :=
  (lookupKV skvs "if").isSome || (lookupKV skvs "then").isSome ||
    (lookupKV skvs "else").isSome

/-- The `components.schemas` items of a document (`{}` when missing or not
a mapping). -/
def schemasItems (doc : JValue) : List (String × JValue) :=
  match jGet doc "components" with
  | some (.obj cs) =>
      match lookupKV cs "schemas" with
      | some (.obj ss) => ss
      | _ => []
  | _ => []

/-- `validate_converted_document` (`validator.py` lines 458-548), without
the optional `openapi_spec_validator` third-party pass (the source's
`HAS_OAS_VALIDATOR = False` fallback).  Returns `(is_valid, errors)`. -/
def validateConvertedDocument (doc : JValue) (targetVersion : String) :
    Bool × List String :=
  match doc with
  | .obj kvs =>
      if (lookupKV kvs "openapi").isNone then
        (false, ["Missing required 'openapi' field"])
      else
        let openapiVersion :=
          match lookupKV kvs "openapi" with
          | some (.str s) => s
          | _ => ""
        let targetMajorMinor := (pySplit targetVersion '.').take 2
        let docMajorMinor := (pySplit openapiVersion '.').take 2
        if docMajorMinor ≠ targetMajorMinor then
          (false, ["Document version " ++ openapiVersion ++ " does not match target "
            ++ targetVersion])
        else if (lookupKV kvs "info").isNone then
          (false, ["Missing required 'info' field"])
        else if (lookupKV kvs "paths").isNone then
          (false, ["Missing required 'paths' field"])
        else
          let errors :=
            if pyStartsWith targetVersion "3.0" then
              (if (lookupKV kvs "webhooks").isSome then
                ["Webhooks found in document but target is 3.0.x (should be removed)"]
               else []) ++
              (schemasItems doc).filterMap (fun p =>
                match p.2 with
                | .obj skvs =>
                    if hasTopLevelConditional skvs then
                      some ("Schema '" ++ p.1 ++ "' contains JSON Schema conditionals "
                        ++ "(if/then/else) which are not supported in 3.0.x")
                    else none
                | _ => none)
            else if pyStartsWith targetVersion "3.1" then
              (schemasItems doc).filterMap (fun p =>
                match p.2 with
                | .obj skvs =>
                    if (lookupKV skvs "nullable").isSome then
                      some ("Schema '" ++ p.1 ++ "' still contains 'nullable' "
                        ++ "(should be converted to type array in 3.1.x)")
                    else none
                | _ => none)
            else []
          (errors.isEmpty, errors)
  | _ => (false, ["Document must be a dictionary"])

/-- The tail of `VersionConverter.convert` after the direction dispatch:
strict-mode gate on rule errors, version-field update, target validation,
and result assembly. -/
def finishConversion (req : ConversionRequest)
    (step : JValue × List String × List String) : ConversionResult :=
  let warnings := step.2.1
  let errors := step.2.2
  if req.strictMode && !errors.isEmpty then
    { success := false, sourceVersion := req.sourceVersion,
      targetVersion := req.targetVersion, errors := errors, warnings := warnings }
  else
    let updated := updateVersion step.1 req.targetVersion
    let validationErrors := (validateConvertedDocument updated req.targetVersion).2
    let errors2 := errors ++ validationErrors
    if !validationErrors.isEmpty && req.strictMode then
      { success := false, sourceVersion := req.sourceVersion,
        targetVersion := req.targetVersion, errors := errors2, warnings := warnings }
    else
      { success := true, sourceVersion := req.sourceVersion,
        targetVersion := req.targetVersion, convertedDocument := some updated,
        warnings := warnings, errors := errors2 }

/-- `VersionConverter.convert` (`converter.py` lines 46-128).  Deep-copying
the input is the identity on immutable trees; the `except Exception`
branch has no pure counterpart. -/
def convert (req : ConversionRequest) (document : JValue) : ConversionResult :=
  if !validateSourceVersion req document then
    { success := false, sourceVersion := req.sourceVersion,
      targetVersion := req.targetVersion,
      errors := ["Source document version mismatch"] }
  else if req.sourceVersion = "3.0.x" && req.targetVersion = "3.1.x" then
    finishConversion req (convert30to31 document)
  else if req.sourceVersion = "3.1.x" && req.targetVersion = "3.0.x" then
    finishConversion req (convert31to30 req.strictMode document)
  else
    { success := false, sourceVersion := req.sourceVersion,
      targetVersion := req.targetVersion,
      errors := ["Unsupported conversion direction"] }

/-! General lemmas about the association-list dictionary operations. -/

/-- A concrete conversion request used in the C7 witness. -/
def c7req : ConversionRequest :=
  { sourceVersion := "3.1.x", targetVersion := "3.0.x", strictMode := true }

/-- A concrete 3.1 document with an `if`/`then`/`else` schema, used in the
C7 witness (its conversion to 3.0.x accumulates an error, so the strict
result fails). -/
def c7doc : JValue := .obj [
  ("openapi", .str "3.1.0"),
  ("info", .obj [("title", .str "T"), ("version", .str "1")]),
  ("paths", .obj []),
  ("components", .obj [("schemas", .obj [
    ("S", .obj [("if", .obj [("type", .str "string")])])])])]

/-- The seven phase results, in pipeline order. -/
def phasesOf (doc origDoc : JValue) : List ValidationResult :=
  [validateFileStructure doc, validateOperationIntegrity doc,
   validateResponseIntegrity doc, validateReferenceResolution doc,
   validateComponentCompleteness, validatePayloadEquivalence doc origDoc,
   validateVersion doc]

/-- Scheme names mentioned by a security requirement list (the keys of its
dict members, in order; non-lists name nothing). -/
def securityNames : JValue → List String
  | .arr reqs => reqs.flatMap securityReqNames
  | _ => []

/-- A document with one global security scheme, used in the C2 witness. -/
def c2doc : JValue := .obj [
  ("openapi", .str "3.0.0"),
  ("security", .arr [.obj [("GlobalAuth", .arr [])]]),
  ("components", .obj [("securitySchemes", .obj [
    ("GlobalAuth", .obj [("type", .str "http")]),
    ("OpAuth", .obj [("type", .str "apiKey")])])])]

/-- The `paths` mapping of a document (`{}` when missing or not a
mapping). -/
def pathsOf (doc : JValue) : List (String × JValue) :=
  match jGetD doc "paths" (.obj []) with
  | .obj l => l
  | _ => []

/-- The keys of a path item (none when the path item is not a mapping). -/
def pathItemKeys : JValue → List String
  | .obj l => keysOf l
  | _ => []

/-- A two-endpoint document used by the C8 witness. -/
def c8doc : JValue := .obj [
  ("openapi", .str "3.0.0"),
  ("paths", .obj [("/p", .obj [("get", .obj [
    ("responses", .obj [("200", .obj [("description", .str "ok")])])])])])]

/-- The category/section pairs of `to_components_dict`, before filtering. -/
def sectionsOf (r : Resolved) : List (String × List (String × JValue)) :=
  [("schemas", r.schemas), ("headers", r.headers), ("parameters", r.parameters),
   ("responses", r.responses), ("requestBodies", r.requestBodies),
   ("securitySchemes", r.securitySchemes), ("links", r.links),
   ("callbacks", r.callbacks)]

/-- Association lookup over the section list. -/
def lookupSec : List (String × List (String × JValue)) → String → Option (List (String × JValue))
  | [], _ => none
  | (k, v) :: rest, key => if k = key then some v else lookupSec rest key

/-- A document with path-level parameters and one referenced schema, used
by the C3 witness. -/
def c3doc : JValue := .obj [
  ("openapi", .str "3.0.0"),
  ("info", .obj [("title", .str "T"), ("version", .str "1")]),
  ("paths", .obj [("/p", .obj [
    ("get", .obj [("responses", .obj [("200", .obj [
      ("description", .str "ok"),
      ("content", .obj [("application/json", .obj [
        ("schema", .obj [("$ref", .str "#/components/schemas/U")])])])])])]),
    ("parameters", .arr [.obj [("name", .str "id"), ("in", .str "path")]])])]),
  ("components", .obj [("schemas", .obj [("U", .obj [("type", .str "object")])])])]

/-- Keys reachable by following `$ref` edges from the seed queue.  A key's
component is only scanned when the key was not pre-visited (`v0` holds the
security-scheme keys resolved by name before the BFS, which the BFS never
re-expands). -/
inductive ReachFrom (doc : JValue) (v0 : List CKey) (seeds : List JValue) : CKey → Prop where
  | seed (r : JValue) (k : CKey) : r ∈ seeds → parseComponentRef r = some k →
      ReachFrom doc v0 seeds k
  | step (k k' : CKey) (c r : JValue) : ReachFrom doc v0 seeds k → k ∉ v0 →
      getComponent doc k.1 k.2 = some c → r ∈ scanV c →
      parseComponentRef r = some k' → ReachFrom doc v0 seeds k'

def c1op : JValue :=
  .obj [("responses", .obj [("200",
    .obj [("$ref", .str "#/components/schemas/A")])])]

def c1pi : List (String × JValue) := [("get", c1op)]

/-- A document whose schema reference graph is the 2-cycle A→B→A. -/
def c1doc : JValue :=
  .obj [("openapi", .str "3.0.0"),
        ("paths", .obj [("/p", .obj c1pi)]),
        ("components", .obj [("schemas", .obj [
          ("A", .obj [("$ref", .str "#/components/schemas/B")]),
          ("B", .obj [("$ref", .str "#/components/schemas/A")])])])]

theorem keysOf_cons (k : String) (v : JValue) (l : List (String × JValue)) :
    keysOf ((k, v) :: l) = k :: keysOf l := rfl

theorem lookupKV_setKey (l : List (String × JValue)) (key : String) (v : JValue)
    (key' : String) :
    lookupKV (setKey l key v) key' = if key' = key then some v else lookupKV l key' := by
  induction l with
  | nil =>
      simp only [setKey, lookupKV]
      by_cases h : key = key'
      · rw [if_pos h, if_pos h.symm]
      · rw [if_neg h, if_neg (mt Eq.symm h)]
  | cons p rest ih =>
      obtain ⟨k, w⟩ := p
      simp only [setKey]
      by_cases hk : k = key
      · subst hk
        simp only [if_pos rfl, lookupKV]
        by_cases h2 : k = key'
        · rw [if_pos h2, if_pos h2.symm]
        · rw [if_neg h2, if_neg (mt Eq.symm h2), if_neg h2]
      · rw [if_neg hk]
        simp only [lookupKV]
        by_cases h2 : k = key'
        · subst h2
          rw [if_pos rfl, if_neg hk, if_pos rfl]
        · rw [if_neg h2, if_neg h2, ih]

theorem lookupKV_isSome_iff_mem (l : List (String × JValue)) (key : String) :
    (lookupKV l key).isSome = true ↔ key ∈ keysOf l := by
  induction l with
  | nil => simp [lookupKV, keysOf]
  | cons p rest ih =>
      obtain ⟨k, v⟩ := p
      rw [keysOf_cons]
      simp only [lookupKV, List.mem_cons]
      by_cases hk : k = key
      · subst hk; simp
      · rw [if_neg hk, ih]
        constructor
        · exact Or.inr
        · rintro (h | h)
          · exact absurd h.symm hk
          · exact h

theorem mem_keysOf_setKey {l : List (String × JValue)} {key : String} {v : JValue}
    {x : String} (hx : x ∈ keysOf (setKey l key v)) : x ∈ keysOf l ∨ x = key := by
  induction l with
  | nil =>
      simp only [setKey, keysOf, List.map_cons, List.map_nil, List.mem_singleton] at hx
      simp only [keysOf, List.map_nil, List.not_mem_nil, false_or]
      exact hx
  | cons p rest ih =>
      obtain ⟨k, w⟩ := p
      simp only [setKey] at hx
      rw [keysOf_cons]
      by_cases hk : k = key
      · rw [if_pos hk] at hx
        rw [keysOf_cons] at hx
        rcases List.mem_cons.mp hx with h | h
        · exact Or.inr h
        · exact Or.inl (List.mem_cons_of_mem _ h)
      · rw [if_neg hk] at hx
        rw [keysOf_cons] at hx
        rcases List.mem_cons.mp hx with h | h
        · exact Or.inl (List.mem_cons.mpr (Or.inl h))
        · rcases ih h with h2 | h2
          · exact Or.inl (List.mem_cons.mpr (Or.inr h2))
          · exact Or.inr h2

theorem keysOf_setKey_nodup {l : List (String × JValue)} (key : String) (v : JValue)
    (h : (keysOf l).Nodup) : (keysOf (setKey l key v)).Nodup := by
  induction l with
  | nil => simp [setKey, keysOf]
  | cons p rest ih =>
      obtain ⟨k, w⟩ := p
      rw [keysOf_cons, List.nodup_cons] at h
      obtain ⟨hknot, hnd⟩ := h
      simp only [setKey]
      by_cases hk : k = key
      · rw [if_pos hk, keysOf_cons, List.nodup_cons]
        exact ⟨hk ▸ hknot, hnd⟩
      · rw [if_neg hk, keysOf_cons, List.nodup_cons]
        refine ⟨?_, ih hnd⟩
        intro hmem
        rcases mem_keysOf_setKey hmem with h2 | h2
        · exact hknot h2
        · exact hk h2

/-! Claim C10: phase 6 skips on every falsy original document. -/

/-- C10: validation phase 6 (payload equivalence) is skipped with an
automatic pass for every falsy original document — not only an absent
(`None`) one, but also an empty mapping `{}` — because the source's skip
condition `if not self.original_doc` tests truthiness, not absence. -/
theorem c10_phase6_falsy_autopass : ∀ doc origDoc : JValue,
    jFalsy origDoc = true → validatePayloadEquivalence doc origDoc = vPass 6 := by
  intro doc origDoc h
  unfold validatePayloadEquivalence
  rw [if_pos h]

/-- Witness for C10: an empty-mapping original document is falsy and phase 6
auto-passes on it. -/
theorem c10_phase6_falsy_autopass_witness :
    jFalsy (JValue.obj []) = true ∧
      validatePayloadEquivalence
        (JValue.obj [("openapi", JValue.str "3.0.0")]) (JValue.obj []) = vPass 6 :=
  ⟨rfl, c10_phase6_falsy_autopass (JValue.obj [("openapi", JValue.str "3.0.0")])
    (JValue.obj []) rfl⟩

/-! Claim C5: the phase-7 version check.  The claim says the `openapi`
string must parse as `<major>.<minor>.<patch>`; the code only requires at
least two dot-separated parts, so `"3.0"` (no patch component) passes. -/

/-- C5 counterexample: the two-part version string `"3.0"` does not have
the `<major>.<minor>.<patch>` shape (it has 2 dot-separated parts, not 3),
yet phase 7 passes on it. -/
theorem c5_version_counterexample :
    (validateVersion (JValue.obj [("openapi", JValue.str "3.0")])).passed = true ∧
      (pySplit "3.0" '.').length = 2 := by
  constructor
  · rfl
  · decide

/-- C5 (amended): phase 7 passes iff the `openapi` field (defaulting to
`""`) is a string that splits on `.` into at least two parts, with the
first part `"3"` and the second `"0"` or `"1"` — a patch component is not
required and extra components are ignored. -/
theorem c5_version_check_amended : ∀ doc : JValue,
    (validateVersion doc).passed = true ↔
      ∃ s, jGetD doc "openapi" (.str "") = .str s ∧
        2 ≤ (pySplit s '.').length ∧ (pySplit s '.').getD 0 "" = "3" ∧
        ((pySplit s '.').getD 1 "" = "0" ∨ (pySplit s '.').getD 1 "" = "1") := by
  intro doc
  unfold validateVersion
  cases h : jGetD doc "openapi" (.str "") with
  | str s =>
      simp only []
      constructor
      · intro hp
        refine ⟨s, rfl, ?_⟩
        by_cases hlen : (pySplit s '.').length < 2
        · rw [if_pos hlen] at hp
          simp [vFail] at hp
        · rw [if_neg hlen] at hp
          by_cases hmaj : ((pySplit s '.').getD 0 "" = "3" ∧
              ((pySplit s '.').getD 1 "" = "0" ∨ (pySplit s '.').getD 1 "" = "1"))
          · exact ⟨Nat.le_of_not_lt hlen, hmaj.1, hmaj.2⟩
          · exfalso
            have hcond : (decide ((pySplit s '.').getD 0 "" = "3") &&
                (decide ((pySplit s '.').getD 1 "" = "0") ||
                 decide ((pySplit s '.').getD 1 "" = "1"))) = false := by
              rcases Decidable.em ((pySplit s '.').getD 0 "" = "3") with h3 | h3
              · rcases Decidable.em ((pySplit s '.').getD 1 "" = "0") with h0 | h0
                · exact absurd ⟨h3, Or.inl h0⟩ hmaj
                · rcases Decidable.em ((pySplit s '.').getD 1 "" = "1") with h1 | h1
                  · exact absurd ⟨h3, Or.inr h1⟩ hmaj
                  · rw [decide_eq_false h0, decide_eq_false h1, Bool.false_or,
                      Bool.and_false]
              · rw [decide_eq_false h3, Bool.false_and]
            rw [hcond] at hp
            simp [vFail] at hp
      · rintro ⟨s', hs', hlen, hmaj, hmin⟩
        have hse : s' = s := by injection hs' with hh; exact hh.symm
        subst hse
        rw [if_neg (Nat.not_lt_of_le hlen)]
        have hcond : (decide ((pySplit s' '.').getD 0 "" = "3") &&
            (decide ((pySplit s' '.').getD 1 "" = "0") ||
             decide ((pySplit s' '.').getD 1 "" = "1"))) = true := by
          rcases hmin with h0 | h0
          · rw [decide_eq_true hmaj, decide_eq_true h0, Bool.true_or,
              Bool.and_self]
          · rw [decide_eq_true hmaj, decide_eq_true h0, Bool.or_true,
              Bool.and_self]
        rw [hcond]
        rfl
  | null => simp [vFail]
  | bool b => simp [vFail]
  | num n => simp [vFail]
  | arr xs => simp [vFail]
  | obj kvs => simp [vFail]

/-! Claim C7: strict-mode error semantics of the version converter. -/

theorem finishConversion_success_iff (req : ConversionRequest)
    (step : JValue × List String × List String) :
    (finishConversion req step).success = true ↔
      (req.strictMode = false ∨ (finishConversion req step).errors = []) := by
  unfold finishConversion
  cases hs : req.strictMode
  · simp only [Bool.false_and, Bool.and_false, if_neg (by simp : ¬(false = true))]
    simp
  · simp only [Bool.true_and, Bool.and_true]
    by_cases he : step.2.2.isEmpty
    · rw [if_neg (by simp [he])]
      have he' : step.2.2 = [] := List.isEmpty_iff.mp he
      by_cases hv : ((validateConvertedDocument
          (updateVersion step.1 req.targetVersion) req.targetVersion).2).isEmpty
      · rw [if_neg (by simp [hv])]
        have hv' := List.isEmpty_iff.mp hv
        simp [he', hv']
      · rw [if_pos (by simp [hv])]
        have hv' := (Iff.not List.isEmpty_iff).mp hv
        simp only [Bool.true_eq_false, false_or]
        constructor
        · intro hcontra; exact absurd hcontra (by simp)
        · intro hcontra
          rw [he'] at hcontra
          simp only [List.nil_append] at hcontra
          exact absurd hcontra (by simpa using hv')
    · rw [if_pos (by simp [he])]
      have he' := (Iff.not List.isEmpty_iff).mp he
      simp only [Bool.true_eq_false, false_or]
      constructor
      · intro hcontra; exact absurd hcontra (by simp)
      · intro hcontra; exact absurd hcontra (by simpa using he')

/-- C7: whenever the conversion proceeds past the source-version check and
the direction dispatch (the cases where errors can accumulate during
transformation or target validation), the result succeeds exactly when
strict mode is off or no error accumulated: with `strict_mode = False`
accumulated errors never make `success` false (they are attached to a
successful result), with `strict_mode = True` any accumulated error makes
it false, and warnings never influence `success`. -/
theorem c7_strict_mode_errors : ∀ (req : ConversionRequest) (doc : JValue),
    validateSourceVersion req doc = true →
    (req.sourceVersion = "3.0.x" ∧ req.targetVersion = "3.1.x") ∨
      (req.sourceVersion = "3.1.x" ∧ req.targetVersion = "3.0.x") →
    ((convert req doc).success = true ↔
      (req.strictMode = false ∨ (convert req doc).errors = [])) := by
  intro req doc hsrc hdir
  unfold convert
  rw [hsrc]
  simp only [Bool.not_true, Bool.false_eq_true, if_false]
  rcases hdir with ⟨h1, h2⟩ | ⟨h1, h2⟩
  · rw [if_pos (by rw [h1, h2]; rfl)]
    exact finishConversion_success_iff req (convert30to31 doc)
  · rw [if_neg (by rw [h1, h2]; simp), if_pos (by rw [h1, h2]; rfl)]
    exact finishConversion_success_iff req (convert31to30 req.strictMode doc)

/-- Witness for C7: the hypotheses hold for `c7req`/`c7doc`, and the
instantiated equivalence correctly reports the strict-mode failure caused
by the accumulated conditional-schema error. -/
theorem c7_strict_mode_errors_witness :
    validateSourceVersion c7req c7doc = true ∧
      ((convert c7req c7doc).success = true ↔
        (c7req.strictMode = false ∨ (convert c7req c7doc).errors = [])) :=
  ⟨by decide, c7_strict_mode_errors c7req c7doc (by decide) (Or.inr ⟨rfl, rfl⟩)⟩

/-! Claim C6: the nullable/type-array schema rewrites are mutually inverse
on scalar nullable schemas. -/

/-- C6: converting `{"type": "string", "nullable": true}` in direction
3.0→3.1 yields `{"type": ["string", "null"]}` with no `nullable` key, and
converting that back in direction 3.1→3.0 restores
`{"type": "string", "nullable": true}`; more generally the two rewrites are
mutually inverse on every scalar nullable schema
`{"type": t, "nullable": true}` / `{"type": [t, "null"]}` with `t ≠
"null"`. -/
theorem c6_nullable_roundtrip :
    (processSchema30to31 (.obj [("type", .str "string"), ("nullable", .bool true)]) =
      .obj [("type", .arr [.str "string", .str "null"])]) ∧
    (processSchema31to30 (.obj [("type", .arr [.str "string", .str "null"])]) =
      .obj [("type", .str "string"), ("nullable", .bool true)]) ∧
    (∀ t : String, t ≠ "null" →
      processSchema31to30 (processSchema30to31
          (.obj [("type", .str t), ("nullable", .bool true)])) =
        .obj [("type", .str t), ("nullable", .bool true)] ∧
      processSchema30to31 (processSchema31to30
          (.obj [("type", .arr [.str t, .str "null"])])) =
        .obj [("type", .arr [.str t, .str "null"])]) := by
  refine ⟨rfl, rfl, ?_⟩
  intro t ht
  have hbeq : beqJ (.str t) (.str "null") = false := by
    simp only [beqJ]
    exact decide_eq_false ht
  have hbeq2 : beqJ (.str "null") (.str "null") = true := by
    simp only [beqJ]
    decide
  constructor
  · show processSchema31to30 (.obj (nullable30to31Node (mapChildren30
      [("type", .str t), ("nullable", .bool true)]))) = _
    have h30 : nullable30to31Node (mapChildren30
        [("type", .str t), ("nullable", .bool true)]) =
        [("type", .arr [.str t, .str "null"])] := rfl
    rw [h30]
    show JValue.obj (typeArray31to30Node (mapChildren31
      [("type", .arr [.str t, .str "null"])])) = _
    have hmap : mapChildren31 [("type", .arr [.str t, .str "null"])] =
        [("type", .arr [.str t, .str "null"])] := rfl
    rw [hmap]
    simp only [typeArray31to30Node, lookupKV, if_pos rfl, List.any_cons, List.any_nil,
      hbeq, hbeq2, Bool.false_or, Bool.or_false, List.filter_cons, Bool.not_false,
      Bool.not_true, if_pos rfl]
    simp [setKey, hbeq, hbeq2]
  · show JValue.obj (nullable30to31Node (mapChildren30 (typeArray31to30Node
      (mapChildren31 [("type", .arr [.str t, .str "null"])])))) = _
    have hmap : mapChildren31 [("type", .arr [.str t, .str "null"])] =
        [("type", .arr [.str t, .str "null"])] := rfl
    rw [hmap]
    have h31 : typeArray31to30Node [("type", .arr [.str t, .str "null"])] =
        [("type", .str t), ("nullable", .bool true)] := by
      simp only [typeArray31to30Node, lookupKV, if_pos rfl, List.any_cons, List.any_nil,
        hbeq, hbeq2, Bool.false_or, Bool.or_false, List.filter_cons, Bool.not_false,
        Bool.not_true]
      simp [setKey, hbeq, hbeq2]
    rw [h31]
    have hmap2 : mapChildren30 [("type", .str t), ("nullable", .bool true)] =
        [("type", .str t), ("nullable", .bool true)] := rfl
    rw [hmap2]
    simp [nullable30to31Node, lookupKV, setKey, delKey]

/-- Witness for C6's general clause at `t = "integer"`. -/
theorem c6_nullable_roundtrip_witness :
    ("integer" : String) ≠ "null" ∧
      processSchema31to30 (processSchema30to31
          (.obj [("type", .str "integer"), ("nullable", .bool true)])) =
        .obj [("type", .str "integer"), ("nullable", .bool true)] :=
  ⟨by decide, (c6_nullable_roundtrip.2.2 "integer" (by decide)).1⟩

/-! Claim C4: the 7-phase pipeline runs in order and returns the first
failing phase's result. -/

theorem checkPathItems_phase : ∀ (l : List (String × JValue)) (r : ValidationResult),
    checkPathItems l = some r → r.phase = 2 := by
  intro l
  induction l with
  | nil => intro r h; simp [checkPathItems] at h
  | cons p rest ih =>
      intro r h
      obtain ⟨path, pitem⟩ := p
      cases pitem with
      | obj pkvs =>
          simp only [checkPathItems] at h
          rcases hc : checkOpsForPath path pkvs methodsList false with ⟨msgOpt, found⟩
          rw [hc] at h
          cases msgOpt with
          | some msg =>
              obtain rfl := Option.some.inj h
              rfl
          | none =>
              cases found with
              | true => exact ih r h
              | false =>
                  obtain rfl := Option.some.inj h
                  rfl
      | null => obtain rfl := Option.some.inj h; rfl
      | bool b => obtain rfl := Option.some.inj h; rfl
      | num n => obtain rfl := Option.some.inj h; rfl
      | str sv => obtain rfl := Option.some.inj h; rfl
      | arr xs => obtain rfl := Option.some.inj h; rfl

theorem validateFileStructure_phase (doc : JValue) :
    (validateFileStructure doc).phase = 1 := by
  unfold validateFileStructure
  try dsimp only
  repeat' split
  all_goals rfl

theorem validateOperationIntegrity_phase (doc : JValue) :
    (validateOperationIntegrity doc).phase = 2 := by
  unfold validateOperationIntegrity
  dsimp only
  split
  · rfl
  · split <;> try rfl
    rename_i v ps heq
    cases hc : checkPathItems ps with
    | none => simp [hc, vPass]
    | some r => simp only [hc, Option.getD_some]; exact checkPathItems_phase ps r hc

theorem validateResponseIntegrity_phase (doc : JValue) :
    (validateResponseIntegrity doc).phase = 3 := by
  unfold validateResponseIntegrity
  try dsimp only
  repeat' split
  all_goals rfl

theorem validateReferenceResolution_phase (doc : JValue) :
    (validateReferenceResolution doc).phase = 4 := by
  unfold validateReferenceResolution
  try dsimp only
  repeat' split
  all_goals rfl

theorem validatePayloadEquivalence_phase (doc origDoc : JValue) :
    (validatePayloadEquivalence doc origDoc).phase = 6 := by
  unfold validatePayloadEquivalence
  try dsimp only
  repeat' split
  all_goals rfl

theorem validateVersion_phase (doc : JValue) :
    (validateVersion doc).phase = 7 := by
  unfold validateVersion
  try dsimp only
  repeat' split
  all_goals rfl

/-- C4: `validate` evaluates the seven phases in ascending order 1-7 and
returns the result of the first phase whose `passed` is `False` (so the
returned `phase` field is the first failing phase's number), returning the
phase-7 result when none fails; the seven phase results carry the phase
numbers 1..7 in order, and phase 5 (component completeness) never fails at
all — in particular never once phase 4 has passed. -/
theorem c4_validate_first_failing : ∀ doc origDoc : JValue,
    validate doc origDoc =
      ((phasesOf doc origDoc).find? (fun r => !r.passed)).getD (validateVersion doc) ∧
    (phasesOf doc origDoc).map ValidationResult.phase = [1, 2, 3, 4, 5, 6, 7] ∧
    validateComponentCompleteness.passed = true := by
  intro doc origDoc
  refine ⟨?_, ?_, rfl⟩
  · unfold validate phasesOf
    cases h1 : (validateFileStructure doc).passed
    · simp [List.find?, h1]
    · cases h2 : (validateOperationIntegrity doc).passed
      · simp [List.find?, h1, h2]
      · cases h3 : (validateResponseIntegrity doc).passed
        · simp [List.find?, h1, h2, h3]
        · cases h4 : (validateReferenceResolution doc).passed
          · simp [List.find?, h1, h2, h3, h4]
          · cases h6 : (validatePayloadEquivalence doc origDoc).passed
            · simp [List.find?, h1, h2, h3, h4, h6, validateComponentCompleteness, vPass]
            · cases h7 : (validateVersion doc).passed <;>
                simp [List.find?, h1, h2, h3, h4, h6, h7,
                  validateComponentCompleteness, vPass]
  · simp only [phasesOf, List.map_cons, List.map_nil,
      validateFileStructure_phase, validateOperationIntegrity_phase,
      validateResponseIntegrity_phase, validateReferenceResolution_phase,
      validatePayloadEquivalence_phase, validateVersion_phase]
    rfl

/-! Claim C2: security-scheme inheritance precedence. -/

theorem add_securitySchemes_field (r : Resolved) (n : String) (d : JValue) :
    (r.add .securitySchemes n d).securitySchemes = setKey r.securitySchemes n d := rfl

theorem addSecurityNames_visited (doc : JValue) :
    ∀ (names : List String) (visited : List CKey) (resolved : Resolved) (k : CKey),
      k ∈ (addSecurityNames doc names visited resolved).1 ↔
        k ∈ visited ∨ k ∈ names.map (fun n => ((ComponentType.securitySchemes : ComponentType), n)) := by
  intro names
  induction names with
  | nil => intro visited resolved k; simp [addSecurityNames]
  | cons name rest ih =>
      intro visited resolved k
      simp only [addSecurityNames]
      by_cases hv : ((ComponentType.securitySchemes : ComponentType), name) ∈ visited
      · rw [if_pos hv, ih]
        simp only [List.map_cons, List.mem_cons]
        constructor
        · rintro (h | h)
          · exact Or.inl h
          · exact Or.inr (Or.inr h)
        · rintro (h | h | h)
          · exact Or.inl h
          · exact Or.inl (h ▸ hv)
          · exact Or.inr h
      · rw [if_neg hv]
        cases hc : getComponent doc .securitySchemes name <;>
        · rw [ih]
          simp only [List.map_cons, List.mem_cons]
          tauto

theorem addSecurityNames_lookup (doc : JValue) :
    ∀ (names : List String) (visited : List CKey) (resolved : Resolved),
      (∀ m, (lookupKV resolved.securitySchemes m).isSome = true →
        ((ComponentType.securitySchemes : ComponentType), m) ∈ visited) →
      ∀ n, lookupKV (addSecurityNames doc names visited resolved).2.securitySchemes n =
        if ((ComponentType.securitySchemes : ComponentType), n) ∉ visited ∧ n ∈ names
        then getComponent doc .securitySchemes n
        else lookupKV resolved.securitySchemes n := by
  intro names
  induction names with
  | nil =>
      intro visited resolved _ n
      rw [if_neg (by simp)]
      rfl
  | cons name rest ih =>
      intro visited resolved hres n
      simp only [addSecurityNames]
      by_cases hv : ((ComponentType.securitySchemes : ComponentType), name) ∈ visited
      · rw [if_pos hv, ih visited resolved hres n]
        by_cases hn : n = name
        · subst hn
          rw [if_neg (by intro h; exact h.1 hv), if_neg (by intro h; exact h.1 hv)]
        · by_cases hcond : ((ComponentType.securitySchemes : ComponentType), n) ∉ visited ∧ n ∈ rest
          · rw [if_pos hcond, if_pos ⟨hcond.1, List.mem_cons_of_mem _ hcond.2⟩]
          · rw [if_neg hcond, if_neg (fun h => hcond ⟨h.1, by
              rcases List.mem_cons.mp h.2 with h2 | h2
              · exact absurd h2 hn
              · exact h2⟩)]
      · rw [if_neg hv]
        cases hc : getComponent doc .securitySchemes name with
        | some d =>
            have hres' : ∀ m,
                (lookupKV (resolved.add .securitySchemes name d).securitySchemes m).isSome = true →
                ((ComponentType.securitySchemes : ComponentType), m) ∈
                  ((ComponentType.securitySchemes : ComponentType), name) :: visited := by
              intro m hm
              rw [add_securitySchemes_field, lookupKV_setKey] at hm
              by_cases hmn : m = name
              · exact hmn ▸ List.mem_cons_self _ _
              · rw [if_neg hmn] at hm
                exact List.mem_cons_of_mem _ (hres m hm)
            rw [ih _ _ hres' n]
            rw [add_securitySchemes_field, lookupKV_setKey]
            by_cases hn : n = name
            · subst hn
              rw [if_neg (by
                  intro h
                  exact h.1 (List.mem_cons_self _ _)), if_pos rfl,
                if_pos ⟨hv, List.mem_cons_self _ _⟩]
              exact hc.symm
            · rw [if_neg hn]
              by_cases hcond : ((ComponentType.securitySchemes : ComponentType), n) ∉ visited ∧ n ∈ rest
              · rw [if_pos ⟨fun h => hcond.1 (by
                    rcases List.mem_cons.mp h with h2 | h2
                    · exact absurd (congrArg Prod.snd h2) hn
                    · exact h2), hcond.2⟩,
                  if_pos ⟨hcond.1, List.mem_cons_of_mem _ hcond.2⟩]
              · rw [if_neg (fun h => hcond ⟨fun h2 => h.1 (List.mem_cons_of_mem _ h2), h.2⟩),
                  if_neg (fun h => hcond ⟨h.1, by
                    rcases List.mem_cons.mp h.2 with h2 | h2
                    · exact absurd h2 hn
                    · exact h2⟩)]
        | none =>
            have hres' : ∀ m,
                (lookupKV resolved.securitySchemes m).isSome = true →
                ((ComponentType.securitySchemes : ComponentType), m) ∈
                  ((ComponentType.securitySchemes : ComponentType), name) :: visited :=
              fun m hm => List.mem_cons_of_mem _ (hres m hm)
            rw [ih _ _ hres' n]
            by_cases hn : n = name
            · subst hn
              rw [if_neg (by
                  intro h
                  exact h.1 (List.mem_cons_self _ _)),
                if_pos ⟨hv, List.mem_cons_self _ _⟩]
              have : (lookupKV resolved.securitySchemes n).isSome ≠ true := by
                intro hsome
                exact hv (hres n hsome)
              cases hl : lookupKV resolved.securitySchemes n with
              | none => exact hc.symm
              | some d => exact absurd (by rw [hl]; rfl) this
            · by_cases hcond : ((ComponentType.securitySchemes : ComponentType), n) ∉ visited ∧ n ∈ rest
              · rw [if_pos ⟨fun h => hcond.1 (by
                    rcases List.mem_cons.mp h with h2 | h2
                    · exact absurd (congrArg Prod.snd h2) hn
                    · exact h2), hcond.2⟩,
                  if_pos ⟨hcond.1, List.mem_cons_of_mem _ hcond.2⟩]
              · rw [if_neg (fun h => hcond ⟨fun h2 => h.1 (List.mem_cons_of_mem _ h2), h.2⟩),
                  if_neg (fun h => hcond ⟨h.1, by
                    rcases List.mem_cons.mp h.2 with h2 | h2
                    · exact absurd h2 hn
                    · exact h2⟩)]

theorem addSecurityNames_hres (doc : JValue) (names : List String) (visited : List CKey)
    (resolved : Resolved)
    (hres : ∀ m, (lookupKV resolved.securitySchemes m).isSome = true →
      ((ComponentType.securitySchemes : ComponentType), m) ∈ visited) :
    ∀ m, (lookupKV (addSecurityNames doc names visited resolved).2.securitySchemes m).isSome = true →
      ((ComponentType.securitySchemes : ComponentType), m) ∈
        (addSecurityNames doc names visited resolved).1 := by
  intro m hm
  rw [addSecurityNames_lookup doc names visited resolved hres m] at hm
  rw [addSecurityNames_visited]
  by_cases hcond : ((ComponentType.securitySchemes : ComponentType), m) ∉ visited ∧ m ∈ names
  · exact Or.inr (List.mem_map.mpr ⟨m, hcond.2, rfl⟩)
  · rw [if_neg hcond] at hm
    exact Or.inl (hres m hm)

theorem resolveSecurityReqs_lookup (doc : JValue) :
    ∀ (reqs : List JValue) (visited : List CKey) (resolved : Resolved),
      (∀ m, (lookupKV resolved.securitySchemes m).isSome = true →
        ((ComponentType.securitySchemes : ComponentType), m) ∈ visited) →
      ∀ n, lookupKV (resolveSecurityReqs doc reqs visited resolved).2.securitySchemes n =
        if ((ComponentType.securitySchemes : ComponentType), n) ∉ visited ∧
            n ∈ reqs.flatMap securityReqNames
        then getComponent doc .securitySchemes n
        else lookupKV resolved.securitySchemes n := by
  intro reqs
  induction reqs with
  | nil =>
      intro visited resolved _ n
      rw [if_neg (by simp)]
      rfl
  | cons req rest ih =>
      intro visited resolved hres n
      simp only [resolveSecurityReqs]
      rw [ih _ _ (addSecurityNames_hres doc (securityReqNames req) visited resolved hres) n,
        addSecurityNames_lookup doc (securityReqNames req) visited resolved hres n,
        List.flatMap_cons]
      by_cases hA : ((ComponentType.securitySchemes : ComponentType), n) ∈ visited
      · have h1 : ¬(((ComponentType.securitySchemes : ComponentType), n) ∉
            (addSecurityNames doc (securityReqNames req) visited resolved).1 ∧
            n ∈ rest.flatMap securityReqNames) :=
          fun h => h.1 ((addSecurityNames_visited doc _ _ _ _).mpr (Or.inl hA))
        rw [if_neg h1, if_neg (fun h => h.1 hA), if_neg (fun h => h.1 hA)]
      · by_cases hB : n ∈ securityReqNames req
        · have hInner : (if ((ComponentType.securitySchemes : ComponentType), n) ∉ visited ∧
              n ∈ securityReqNames req
              then getComponent doc .securitySchemes n
              else lookupKV resolved.securitySchemes n) =
              getComponent doc .securitySchemes n := if_pos ⟨hA, hB⟩
          rw [hInner, ite_self, if_pos ⟨hA, List.mem_append.mpr (Or.inl hB)⟩]
        · have hnotvr : ((ComponentType.securitySchemes : ComponentType), n) ∉
              (addSecurityNames doc (securityReqNames req) visited resolved).1 := by
            intro h
            rcases (addSecurityNames_visited doc _ _ _ _).mp h with h1 | h1
            · exact hA h1
            · obtain ⟨a, ha, heq⟩ := List.mem_map.mp h1
              injection heq with heq1 heq2
              subst heq2
              exact hB ha
          have hInner : (if ((ComponentType.securitySchemes : ComponentType), n) ∉ visited ∧
              n ∈ securityReqNames req
              then getComponent doc .securitySchemes n
              else lookupKV resolved.securitySchemes n) =
              lookupKV resolved.securitySchemes n := if_neg (fun h => hB h.2)
          rw [hInner]
          by_cases hC : n ∈ rest.flatMap securityReqNames
          · rw [if_pos ⟨hnotvr, hC⟩, if_pos ⟨hA, List.mem_append.mpr (Or.inr hC)⟩]
          · rw [if_neg (fun h => hC h.2), if_neg (fun h => by
              rcases List.mem_append.mp h.2 with h2 | h2
              · exact hB h2
              · exact hC h2)]

theorem resolveSecuritySchemes_lookup (doc operation : JValue) (n : String) :
    lookupKV (resolveSecuritySchemes doc operation [] Resolved.empty).2.securitySchemes n =
      if n ∈ securityNames (securityOf doc operation)
      then getComponent doc .securitySchemes n else none := by
  unfold resolveSecuritySchemes
  by_cases hf : jFalsy (securityOf doc operation) = true
  · rw [if_pos hf]
    have hnames : securityNames (securityOf doc operation) = [] := by
      cases hs : securityOf doc operation <;> simp only [securityNames]
      rename_i xs
      rw [hs] at hf
      simp only [jFalsy] at hf
      rw [List.isEmpty_iff.mp hf]
      rfl
    rw [hnames, if_neg (List.not_mem_nil n)]
    rfl
  · rw [if_neg hf]
    cases hs : securityOf doc operation with
    | arr reqs =>
        rw [resolveSecurityReqs_lookup doc reqs [] Resolved.empty
          (fun m hm => by simp [Resolved.empty, lookupKV] at hm) n]
        simp only [securityNames, List.not_mem_nil, not_false_iff, true_and]
        rfl
    | null => simp [securityNames, Resolved.empty, lookupKV]
    | bool b => simp [securityNames, Resolved.empty, lookupKV]
    | num m => simp [securityNames, Resolved.empty, lookupKV]
    | str sv => simp [securityNames, Resolved.empty, lookupKV]
    | obj kvs => simp [securityNames, Resolved.empty, lookupKV]

/-- C2: security-scheme inheritance precedence of
`_resolve_security_schemes` (as invoked with fresh state): an explicit
empty `security: []` on the operation resolves nothing (no fallback to the
global `security`); a missing `security` key resolves exactly the schemes
named by the document's top-level `security` (those present in
`components.securitySchemes`); a non-empty operation-level `security`
resolves exactly the schemes it names (those present). -/
theorem c2_security_precedence : ∀ doc operation : JValue,
    (jGet operation "security" = some (.arr []) →
      (resolveSecuritySchemes doc operation [] Resolved.empty).2 = Resolved.empty) ∧
    (jGet operation "security" = none →
      ∀ n, lookupKV (resolveSecuritySchemes doc operation [] Resolved.empty).2.securitySchemes n =
        if n ∈ securityNames (jGetD doc "security" (.arr []))
        then getComponent doc .securitySchemes n else none) ∧
    (∀ reqs, jGet operation "security" = some (.arr reqs) → reqs ≠ [] →
      ∀ n, lookupKV (resolveSecuritySchemes doc operation [] Resolved.empty).2.securitySchemes n =
        if n ∈ securityNames (.arr reqs)
        then getComponent doc .securitySchemes n else none) := by
  intro doc operation
  refine ⟨?_, ?_, ?_⟩
  · intro hsec
    have hso : securityOf doc operation = .arr [] := by
      unfold securityOf
      rw [hsec]
    unfold resolveSecuritySchemes
    rw [hso]
    rfl
  · intro hsec n
    have hso : securityOf doc operation = jGetD doc "security" (.arr []) := by
      unfold securityOf
      rw [hsec]
    rw [resolveSecuritySchemes_lookup, hso]
  · intro reqs hsec _ n
    have hso : securityOf doc operation = .arr reqs := by
      unfold securityOf
      rw [hsec]
    rw [resolveSecuritySchemes_lookup, hso]

/-- Witness for C2: an operation without a `security` key inherits the
global scheme; one with `security: []` resolves nothing; one naming
`OpAuth` resolves exactly it. -/
theorem c2_security_precedence_witness :
    ((resolveSecuritySchemes c2doc (.obj [("security", .arr [])]) [] Resolved.empty).2 =
      Resolved.empty) ∧
    (lookupKV (resolveSecuritySchemes c2doc (.obj []) [] Resolved.empty).2.securitySchemes
        "GlobalAuth" =
      if "GlobalAuth" ∈ securityNames (jGetD c2doc "security" (.arr []))
      then getComponent c2doc .securitySchemes "GlobalAuth" else none) ∧
    (lookupKV (resolveSecuritySchemes c2doc
          (.obj [("security", .arr [.obj [("OpAuth", .arr [])]])]) [] Resolved.empty).2.securitySchemes
        "OpAuth" =
      if "OpAuth" ∈ securityNames (.arr [.obj [("OpAuth", .arr [])]])
      then getComponent c2doc .securitySchemes "OpAuth" else none) :=
  ⟨(c2_security_precedence c2doc (.obj [("security", .arr [])])).1 rfl,
   (c2_security_precedence c2doc (.obj [])).2.1 rfl "GlobalAuth",
   (c2_security_precedence c2doc
     (.obj [("security", .arr [.obj [("OpAuth", .arr [])]])])).2.2
     [.obj [("OpAuth", .arr [])]] rfl (by simp) "OpAuth"⟩

/-! Claim C8: not-found errors exactly on missing path/method; malformed
refs are skipped, not raised. -/

theorem endpointOf_isSome_iff (doc : JValue) (path method : String) :
    (endpointOf doc path method).isSome = true ↔
      ∃ pi, lookupKV (pathsOf doc) path = some pi ∧ pyLower method ∈ pathItemKeys pi := by
  unfold endpointOf pathsOf
  cases h0 : jGetD doc "paths" (.obj []) with
  | obj ps =>
      cases h1 : lookupKV ps path with
      | none => simp [h1]
      | some v =>
          cases v with
          | obj pathItem =>
              cases h2 : lookupKV pathItem (pyLower method) with
              | none =>
                  simp only [h1, h2, Option.isSome_none]
                  constructor
                  · intro h; exact absurd h (by simp)
                  · rintro ⟨pi, hpi, hmem⟩
                    obtain rfl : JValue.obj pathItem = pi := by injection hpi
                    rw [pathItemKeys] at hmem
                    have := (lookupKV_isSome_iff_mem pathItem (pyLower method)).mpr hmem
                    rw [h2] at this
                    exact absurd this (by simp)
              | some op =>
                  simp only [h1, h2, Option.isSome_some, true_iff]
                  refine ⟨.obj pathItem, rfl, ?_⟩
                  rw [pathItemKeys]
                  exact (lookupKV_isSome_iff_mem pathItem (pyLower method)).mp (by rw [h2]; rfl)
          | null =>
              simp only [h1]
              constructor
              · intro h; exact absurd h (by simp)
              · rintro ⟨pi, hpi, hmem⟩
                obtain rfl : JValue.null = pi := by injection hpi
                simp [pathItemKeys] at hmem
          | bool b =>
              simp only [h1]
              constructor
              · intro h; exact absurd h (by simp)
              · rintro ⟨pi, hpi, hmem⟩
                obtain rfl : JValue.bool b = pi := by injection hpi
                simp [pathItemKeys] at hmem
          | num m =>
              simp only [h1]
              constructor
              · intro h; exact absurd h (by simp)
              · rintro ⟨pi, hpi, hmem⟩
                obtain rfl : JValue.num m = pi := by injection hpi
                simp [pathItemKeys] at hmem
          | str sv =>
              simp only [h1]
              constructor
              · intro h; exact absurd h (by simp)
              · rintro ⟨pi, hpi, hmem⟩
                obtain rfl : JValue.str sv = pi := by injection hpi
                simp [pathItemKeys] at hmem
          | arr xs =>
              simp only [h1]
              constructor
              · intro h; exact absurd h (by simp)
              · rintro ⟨pi, hpi, hmem⟩
                obtain rfl : JValue.arr xs = pi := by injection hpi
                simp [pathItemKeys] at hmem
  | null => simp [lookupKV]
  | bool b => simp [lookupKV]
  | num m => simp [lookupKV]
  | str sv => simp [lookupKV]
  | arr xs => simp [lookupKV]

theorem resolveAllRefs_isSome_iff_endpointOf (doc : JValue) (path method : String) :
    (resolveAllRefs doc path method).isSome = (endpointOf doc path method).isSome := by
  unfold resolveAllRefs
  cases h : endpointOf doc path method with
  | none => rfl
  | some pr => rfl

theorem extract_isSome_iff_endpointOf (doc : JValue) (path method : String) :
    (extract doc path method).isSome = (endpointOf doc path method).isSome := by
  unfold extract
  cases h : endpointOf doc path method with
  | none => rfl
  | some pr =>
      have hr : resolveAllRefs doc path method =
          some (bfsAux doc (resolveSecuritySchemes doc pr.2 [] Resolved.empty).1
            (resolveSecuritySchemes doc pr.2 [] Resolved.empty).2
            (scanV (jGetD (.obj pr.1) "parameters" (.arr [])) ++ scanV pr.2)).2 := by
        unfold resolveAllRefs
        rw [h]
      obtain ⟨pi, op⟩ := pr
      rw [hr]
      rfl

theorem bfsAux_skip_unparsable (doc : JValue) (visited : List CKey)
    (resolved : Resolved) (ref : JValue) (rest : List JValue)
    (h : parseComponentRef ref = none) :
    bfsAux doc visited resolved (ref :: rest) = bfsAux doc visited resolved rest := by
  rw [bfsAux]
  rw [h]

/-- C8: `resolve_all_refs` and `extract` report the not-found error (the
raised `KeyError`, modelled as `none`) exactly when the requested path is
not a key of the document's `paths` mapping or the lower-cased method is
not a key of that path item; when both are present neither raises, and a
queue entry whose `$ref` does not parse as an internal component reference
(external or malformed) is skipped silently by the BFS rather than
raised. -/
theorem c8_notfound_iff : ∀ (doc : JValue) (path method : String),
    ((resolveAllRefs doc path method).isSome = true ↔
      ∃ pi, lookupKV (pathsOf doc) path = some pi ∧ pyLower method ∈ pathItemKeys pi) ∧
    ((extract doc path method).isSome = true ↔
      ∃ pi, lookupKV (pathsOf doc) path = some pi ∧ pyLower method ∈ pathItemKeys pi) ∧
    (∀ (visited : List CKey) (resolved : Resolved) (ref : JValue) (rest : List JValue),
      parseComponentRef ref = none →
      bfsAux doc visited resolved (ref :: rest) = bfsAux doc visited resolved rest) := by
  intro doc path method
  refine ⟨?_, ?_, fun v r ref rest h => bfsAux_skip_unparsable doc v r ref rest h⟩
  · rw [resolveAllRefs_isSome_iff_endpointOf]
    exact endpointOf_isSome_iff doc path method
  · rw [extract_isSome_iff_endpointOf]
    exact endpointOf_isSome_iff doc path method

/-- Witness for C8: the present `("/p", GET)` endpoint resolves without a
not-found error, and an external ref at the head of the BFS queue is
skipped silently. -/
theorem c8_notfound_iff_witness :
    (resolveAllRefs c8doc "/p" "GET").isSome = true ∧
      bfsAux c8doc [] Resolved.empty
          [.str "https://example.com/other.yaml#/components/schemas/X"] =
        bfsAux c8doc [] Resolved.empty [] :=
  ⟨(c8_notfound_iff c8doc "/p" "GET").1.mpr
      ⟨.obj [("get", .obj [("responses", .obj [("200", .obj [("description", .str "ok")])])])],
        rfl, by decide⟩,
   (c8_notfound_iff c8doc "/p" "GET").2.2 [] Resolved.empty
     (.str "https://example.com/other.yaml#/components/schemas/X") [] (by decide)⟩

/-! Claim C3: shape of the extracted document. -/

theorem toComponentsDict_eq_sections (r : Resolved) :
    r.toComponentsDict =
      ((sectionsOf r).filter (fun p => !p.2.isEmpty)).map (fun p => (p.1, JValue.obj p.2)) := rfl

theorem lookupKV_filteredSections_notMem :
    ∀ (sections : List (String × List (String × JValue))) (key : String),
      key ∉ sections.map Prod.fst →
      lookupKV ((sections.filter (fun p => !p.2.isEmpty)).map
        (fun p => (p.1, JValue.obj p.2))) key = none := by
  intro sections
  induction sections with
  | nil => intro key _; rfl
  | cons p rest ih =>
      intro key hk
      obtain ⟨k, v⟩ := p
      simp only [List.map_cons, List.mem_cons] at hk
      push_neg at hk
      obtain ⟨hk1, hk2⟩ := hk
      simp only [List.filter_cons]
      cases hv : !v.isEmpty
      · simp only [Bool.false_eq_true, if_false]
        exact ih key hk2
      · simp only [if_true]
        simp only [List.map_cons, lookupKV]
        rw [if_neg (fun h => hk1 h.symm)]
        exact ih key hk2

theorem lookupKV_filteredSections :
    ∀ (sections : List (String × List (String × JValue))) (key : String),
      (sections.map Prod.fst).Nodup →
      lookupKV ((sections.filter (fun p => !p.2.isEmpty)).map
        (fun p => (p.1, JValue.obj p.2))) key =
        (match lookupSec sections key with
         | some v => if v.isEmpty then none else some (.obj v)
         | none => none) := by
  intro sections
  induction sections with
  | nil => intro key _; rfl
  | cons p rest ih =>
      intro key hnd
      obtain ⟨k, v⟩ := p
      simp only [List.map_cons, List.nodup_cons] at hnd
      obtain ⟨hknot, hnd⟩ := hnd
      by_cases hk : k = key
      · subst hk
        have hsec : lookupSec ((k, v) :: rest) k = some v := by
          simp [lookupSec]
        rw [hsec]
        cases hv : v.isEmpty
        · have hfil : List.filter (fun p => !p.2.isEmpty) ((k, v) :: rest) =
              (k, v) :: List.filter (fun p => !p.2.isEmpty) rest := by
            simp [List.filter_cons, hv]
          rw [hfil]
          simp only [List.map_cons, lookupKV, if_pos rfl]
          simp [hv]
        · have hfil : List.filter (fun p => !p.2.isEmpty) ((k, v) :: rest) =
              List.filter (fun p => !p.2.isEmpty) rest := by
            simp [List.filter_cons, hv]
          rw [hfil]
          simp only [hv, if_true]
          exact lookupKV_filteredSections_notMem rest k hknot
      · have hsec : lookupSec ((k, v) :: rest) key = lookupSec rest key := by
          simp [lookupSec, hk]
        rw [hsec]
        cases hv : v.isEmpty
        · have hfil : List.filter (fun p => !p.2.isEmpty) ((k, v) :: rest) =
              (k, v) :: List.filter (fun p => !p.2.isEmpty) rest := by
            simp [List.filter_cons, hv]
          rw [hfil]
          simp only [List.map_cons, lookupKV]
          rw [if_neg hk]
          exact ih key hnd
        · have hfil : List.filter (fun p => !p.2.isEmpty) ((k, v) :: rest) =
              List.filter (fun p => !p.2.isEmpty) rest := by
            simp [List.filter_cons, hv]
          rw [hfil]
          exact ih key hnd

theorem lookupSec_sectionsOf (r : Resolved) (ct : ComponentType) :
    lookupSec (sectionsOf r) ct.value = some (r.get ct) := by
  cases ct <;> rfl

theorem sectionsOf_keys_nodup (r : Resolved) :
    ((sectionsOf r).map Prod.fst).Nodup := by
  have : (sectionsOf r).map Prod.fst =
      ["schemas", "headers", "parameters", "responses", "requestBodies",
       "securitySchemes", "links", "callbacks"] := rfl
  rw [this]
  decide

theorem toComponentsDict_lookup (r : Resolved) (ct : ComponentType) :
    lookupKV r.toComponentsDict ct.value =
      if (r.get ct).isEmpty then none else some (.obj (r.get ct)) := by
  rw [toComponentsDict_eq_sections,
    lookupKV_filteredSections (sectionsOf r) ct.value (sectionsOf_keys_nodup r),
    lookupSec_sectionsOf]

theorem toComponentsDict_eq_nil_iff (r : Resolved) :
    r.toComponentsDict = [] ↔ r.isEmptyR = true := by
  rw [toComponentsDict_eq_sections]
  rw [List.map_eq_nil_iff, List.filter_eq_nil_iff]
  unfold sectionsOf Resolved.isEmptyR
  simp only [List.mem_cons, List.not_mem_nil, or_false, forall_eq_or_imp, forall_eq,
    Bool.not_eq_true', Bool.not_eq_false', Bool.and_eq_true, Bool.not_eq_false,
    Bool.not_eq_true]
  tauto

theorem isEmptyR_get_nil {r : Resolved} (h : r.isEmptyR = true) (ct : ComponentType) :
    r.get ct = [] := by
  unfold Resolved.isEmptyR at h
  simp only [Bool.and_eq_true, List.isEmpty_iff] at h
  obtain ⟨⟨⟨⟨⟨⟨⟨h1, h2⟩, h3⟩, h4⟩, h5⟩, h6⟩, h7⟩, h8⟩ := h
  cases ct <;> simp [Resolved.get, h1, h2, h3, h4, h5, h6, h7, h8]

theorem lookupKV_shell_components (x1 x2 x3 : JValue) (tail : List (String × JValue)) :
    lookupKV ([("openapi", x1), ("info", x2), ("paths", x3)] ++ tail) "components" =
      lookupKV tail "components" := rfl

theorem lookupKV_shell_paths (x1 x2 x3 : JValue) (tail : List (String × JValue)) :
    lookupKV ([("openapi", x1), ("info", x2), ("paths", x3)] ++ tail) "paths" =
      some x3 := rfl

/-- C3: the extracted document's `paths` contains exactly the requested
path, mapping to exactly the requested lower-cased method (plus the
path-level `parameters` entry when the source path item has one); each of
the eight component categories has a section in the output's `components`
iff its resolved mapping is non-empty (no empty `{}` category sections);
and when the resolved component set is entirely empty the output has no
`components` key at all. -/
theorem c3_extract_shape : ∀ (doc : JValue) (path method : String) (d : JValue),
    extract doc path method = some d →
    ∃ pathItem operation resolved,
      endpointOf doc path method = some (pathItem, operation) ∧
      resolveAllRefs doc path method = some resolved ∧
      jGet d "paths" = some (.obj [(path, .obj ([(pyLower method, operation)] ++
        (match lookupKV pathItem "parameters" with
         | some pv => [("parameters", pv)]
         | none => [])))]) ∧
      ((jGet d "components").isSome = true ↔ resolved.isEmptyR = false) ∧
      (∀ ct : ComponentType,
        (match jGet d "components" with
         | some (.obj cs) => (lookupKV cs ct.value).isSome
         | _ => false) = true ↔ resolved.get ct ≠ []) := by
  intro doc path method d h
  unfold extract at h
  cases hep : endpointOf doc path method with
  | none => rw [hep] at h; exact absurd h (by simp)
  | some pr =>
      obtain ⟨pi, op⟩ := pr
      rw [hep] at h
      have hr : resolveAllRefs doc path method =
          some (bfsAux doc (resolveSecuritySchemes doc op [] Resolved.empty).1
            (resolveSecuritySchemes doc op [] Resolved.empty).2
            (scanV (jGetD (.obj pi) "parameters" (.arr [])) ++ scanV op)).2 := by
        unfold resolveAllRefs
        rw [hep]
      rw [hr] at h
      set RES := (bfsAux doc (resolveSecuritySchemes doc op [] Resolved.empty).1
            (resolveSecuritySchemes doc op [] Resolved.empty).2
            (scanV (jGetD (.obj pi) "parameters" (.arr [])) ++ scanV op)).2 with hRES
      have hd : JValue.obj (
          [("openapi", jGetD doc "openapi" (.str "3.0.0")),
           ("info", jGetD doc "info"
              (.obj [("title", .str "Extracted"), ("version", .str "1.0.0")])),
           ("paths", .obj [(path, .obj ([(pyLower method, op)] ++
              (match lookupKV pi "parameters" with
               | some pv => [("parameters", pv)]
               | none => [])))])] ++
          (if RES.toComponentsDict.isEmpty then [] else
            [("components", .obj RES.toComponentsDict)])) = d := Option.some.inj h
      subst hd
      refine ⟨pi, op, RES, rfl, hr, ?_, ?_, ?_⟩
      · simp only [jGet]
        rw [lookupKV_shell_paths]
      · simp only [jGet]
        rw [lookupKV_shell_components]
        cases hce : RES.toComponentsDict.isEmpty with
        | true =>
            rw [if_pos rfl]
            have hEmptyR := (toComponentsDict_eq_nil_iff _).mp (List.isEmpty_iff.mp hce)
            simp [lookupKV, hEmptyR]
        | false =>
            rw [if_neg (by simp)]
            have hne : ¬(RES.isEmptyR = true) := by
              intro hE
              have h2 := (toComponentsDict_eq_nil_iff RES).mpr hE
              rw [h2] at hce
              simp at hce
            simp only [lookupKV, if_pos rfl, if_true, Option.isSome_some, true_iff]
            exact Bool.eq_false_iff.mpr hne
      · intro ct
        simp only [jGet]
        rw [lookupKV_shell_components]
        cases hce : RES.toComponentsDict.isEmpty with
        | true =>
            rw [if_pos rfl]
            have hEmptyR := (toComponentsDict_eq_nil_iff _).mp (List.isEmpty_iff.mp hce)
            have hget := isEmptyR_get_nil hEmptyR ct
            simp [lookupKV, hget]
        | false =>
            rw [if_neg (by simp)]
            simp only [lookupKV, if_pos rfl, if_true]
            rw [toComponentsDict_lookup]
            cases hg : (RES.get ct).isEmpty with
            | true =>
                rw [if_pos rfl]
                have hnil := List.isEmpty_iff.mp hg
                simp [hnil]
            | false =>
                rw [if_neg (by simp)]
                have hne2 : ¬(RES.get ct = []) := by
                  intro hE
                  rw [hE] at hg
                  simp at hg
                simp [hne2]

/-- Witness for C3: the instantiated shape facts for a concrete
extraction. -/
theorem c3_extract_shape_witness :
    ∃ d, extract c3doc "/p" "GET" = some d ∧
      (∃ pathItem operation resolved,
        endpointOf c3doc "/p" "GET" = some (pathItem, operation) ∧
        resolveAllRefs c3doc "/p" "GET" = some resolved ∧
        jGet d "paths" = some (.obj [("/p", .obj ([(pyLower "GET", operation)] ++
          (match lookupKV pathItem "parameters" with
           | some pv => [("parameters", pv)]
           | none => [])))]) ∧
        ((jGet d "components").isSome = true ↔ resolved.isEmptyR = false) ∧
        (∀ ct : ComponentType,
          (match jGet d "components" with
           | some (.obj cs) => (lookupKV cs ct.value).isSome
           | _ => false) = true ↔ resolved.get ct ≠ [])) := by
  have hs : (extract c3doc "/p" "GET").isSome = true := by
    rw [extract_isSome_iff_endpointOf]
    decide
  exact ⟨_, (Option.some_get hs).symm,
    c3_extract_shape c3doc "/p" "GET" _ (Option.some_get hs).symm⟩

/-! Claim C1: BFS termination and exactly-once resolution, also on cyclic
reference graphs.  Termination itself is witnessed by `bfsAux` being a
total function, proved by the source's own argument (the visited set over
the finite universe of `(category, name)` pairs, see `bfsMeasure`). -/

theorem bfsAux_nil (doc : JValue) (visited : List CKey) (resolved : Resolved) :
    bfsAux doc visited resolved [] = (visited, resolved) := by
  rw [bfsAux]

theorem bfsAux_cons_visited (doc : JValue) (visited : List CKey) (resolved : Resolved)
    (x : JValue) (xs : List JValue) (ct : ComponentType) (name : String)
    (hp : parseComponentRef x = some (ct, name)) (hv : (ct, name) ∈ visited) :
    bfsAux doc visited resolved (x :: xs) = bfsAux doc visited resolved xs := by
  rw [bfsAux, hp]
  split
  · rfl
  · rename_i ct2 name2 heq
    obtain ⟨h1, h2⟩ : ct = ct2 ∧ name = name2 := by
      injection heq with h3
      injection h3 with ha hb
      exact ⟨ha, hb⟩
    subst h1
    subst h2
    exact dif_pos hv

theorem bfsAux_cons_new_none (doc : JValue) (visited : List CKey) (resolved : Resolved)
    (x : JValue) (xs : List JValue) (ct : ComponentType) (name : String)
    (hp : parseComponentRef x = some (ct, name)) (hv : (ct, name) ∉ visited)
    (hc : getComponent doc ct name = none) :
    bfsAux doc visited resolved (x :: xs) =
      bfsAux doc ((ct, name) :: visited) resolved xs := by
  rw [bfsAux, hp]
  split
  · rename_i heq
    exact absurd heq (by simp)
  · rename_i ct2 name2 heq
    obtain ⟨h1, h2⟩ : ct = ct2 ∧ name = name2 := by
      injection heq with h3
      injection h3 with ha hb
      exact ⟨ha, hb⟩
    subst h1
    subst h2
    rw [dif_neg hv]
    split
    · rfl
    · rename_i cdef heq2
      rw [hc] at heq2
      exact absurd heq2 (by simp)

theorem bfsAux_cons_new_some (doc : JValue) (visited : List CKey) (resolved : Resolved)
    (x : JValue) (xs : List JValue) (ct : ComponentType) (name : String) (cdef : JValue)
    (hp : parseComponentRef x = some (ct, name)) (hv : (ct, name) ∉ visited)
    (hc : getComponent doc ct name = some cdef) :
    bfsAux doc visited resolved (x :: xs) =
      bfsAux doc ((ct, name) :: visited) (resolved.add ct name cdef)
        (xs ++ scanV cdef) := by
  rw [bfsAux, hp]
  split
  · rename_i heq
    exact absurd heq (by simp)
  · rename_i ct2 name2 heq
    obtain ⟨h1, h2⟩ : ct = ct2 ∧ name = name2 := by
      injection heq with h3
      injection h3 with ha hb
      exact ⟨ha, hb⟩
    subst h1
    subst h2
    rw [dif_neg hv]
    split
    · rename_i heq2
      rw [hc] at heq2
      exact absurd heq2 (by simp)
    · rename_i cdef2 heq2
      rw [hc] at heq2
      obtain rfl : cdef = cdef2 := by injection heq2
      rfl

theorem Resolved.get_add (r : Resolved) (ct' : ComponentType) (n' : String) (d : JValue)
    (ct : ComponentType) :
    (r.add ct' n' d).get ct =
      if ct = ct' then setKey (r.get ct) n' d else r.get ct := by
  cases ct' <;> cases ct <;> simp [Resolved.add, Resolved.get]

theorem bfsAux_visited_subset (doc : JValue) :
    ∀ (visited : List CKey) (resolved : Resolved) (queue : List JValue),
      ∀ k ∈ visited, k ∈ (bfsAux doc visited resolved queue).1 := by
  intro visited resolved queue
  induction visited, resolved, queue using bfsAux.induct doc with
  | case1 visited resolved =>
      intro k hk
      rw [bfsAux_nil]
      exact hk
  | case2 visited resolved x xs hp ih =>
      intro k hk
      rw [bfsAux_skip_unparsable doc visited resolved x xs hp]
      exact ih k hk
  | case3 visited resolved x xs ct name hp hv ih =>
      intro k hk
      rw [bfsAux_cons_visited doc visited resolved x xs ct name hp hv]
      exact ih k hk
  | case4 visited resolved x xs ct name hp hv hc ih =>
      intro k hk
      rw [bfsAux_cons_new_none doc visited resolved x xs ct name hp hv hc]
      exact ih k (List.mem_cons_of_mem _ hk)
  | case5 visited resolved x xs ct name hp hv cdef hc ih =>
      intro k hk
      rw [bfsAux_cons_new_some doc visited resolved x xs ct name cdef hp hv hc]
      exact ih k (List.mem_cons_of_mem _ hk)

theorem bfsAux_resolved_mono (doc : JValue) :
    ∀ (visited : List CKey) (resolved : Resolved) (queue : List JValue),
      ∀ (ct : ComponentType) (n : String),
        (lookupKV (resolved.get ct) n).isSome = true →
        (lookupKV ((bfsAux doc visited resolved queue).2.get ct) n).isSome = true := by
  intro visited resolved queue
  induction visited, resolved, queue using bfsAux.induct doc with
  | case1 visited resolved =>
      intro ct n h
      rw [bfsAux_nil]
      exact h
  | case2 visited resolved x xs hp ih =>
      intro ct n h
      rw [bfsAux_skip_unparsable doc visited resolved x xs hp]
      exact ih ct n h
  | case3 visited resolved x xs ct' name hp hv ih =>
      intro ct n h
      rw [bfsAux_cons_visited doc visited resolved x xs ct' name hp hv]
      exact ih ct n h
  | case4 visited resolved x xs ct' name hp hv hc ih =>
      intro ct n h
      rw [bfsAux_cons_new_none doc visited resolved x xs ct' name hp hv hc]
      exact ih ct n h
  | case5 visited resolved x xs ct' name hp hv cdef hc ih =>
      intro ct n h
      rw [bfsAux_cons_new_some doc visited resolved x xs ct' name cdef hp hv hc]
      apply ih ct n
      rw [Resolved.get_add]
      by_cases hct : ct = ct'
      · rw [if_pos hct, lookupKV_setKey]
        by_cases hn : n = name
        · rw [if_pos hn]
          rfl
        · rw [if_neg hn]
          exact h
      · rw [if_neg hct]
        exact h

theorem bfsAux_queue_complete (doc : JValue) :
    ∀ (visited : List CKey) (resolved : Resolved) (queue : List JValue),
      ∀ r ∈ queue, ∀ k, parseComponentRef r = some k →
        k ∈ (bfsAux doc visited resolved queue).1 := by
  intro visited resolved queue
  induction visited, resolved, queue using bfsAux.induct doc with
  | case1 visited resolved =>
      intro r hr
      exact absurd hr (List.not_mem_nil r)
  | case2 visited resolved x xs hp ih =>
      intro r hr k hk
      rw [bfsAux_skip_unparsable doc visited resolved x xs hp]
      rcases List.mem_cons.mp hr with rfl | hr2
      · rw [hp] at hk
        exact absurd hk (by simp)
      · exact ih r hr2 k hk
  | case3 visited resolved x xs ct name hp hv ih =>
      intro r hr k hk
      rw [bfsAux_cons_visited doc visited resolved x xs ct name hp hv]
      rcases List.mem_cons.mp hr with rfl | hr2
      · rw [hp] at hk
        obtain rfl := Option.some.inj hk
        exact bfsAux_visited_subset doc visited resolved xs _ hv
      · exact ih r hr2 k hk
  | case4 visited resolved x xs ct name hp hv hc ih =>
      intro r hr k hk
      rw [bfsAux_cons_new_none doc visited resolved x xs ct name hp hv hc]
      rcases List.mem_cons.mp hr with rfl | hr2
      · rw [hp] at hk
        obtain rfl := Option.some.inj hk
        exact bfsAux_visited_subset doc _ resolved xs _ (List.mem_cons_self _ _)
      · exact ih r hr2 k hk
  | case5 visited resolved x xs ct name hp hv cdef hc ih =>
      intro r hr k hk
      rw [bfsAux_cons_new_some doc visited resolved x xs ct name cdef hp hv hc]
      rcases List.mem_cons.mp hr with rfl | hr2
      · rw [hp] at hk
        obtain rfl := Option.some.inj hk
        exact bfsAux_visited_subset doc _ _ _ _ (List.mem_cons_self _ _)
      · exact ih r (List.mem_append.mpr (Or.inl hr2)) k hk

theorem bfsAux_expand (doc : JValue) :
    ∀ (visited : List CKey) (resolved : Resolved) (queue : List JValue),
      ∀ (k : CKey) (c : JValue),
        k ∈ (bfsAux doc visited resolved queue).1 → k ∉ visited →
        getComponent doc k.1 k.2 = some c →
        ∀ r ∈ scanV c, ∀ k', parseComponentRef r = some k' →
          k' ∈ (bfsAux doc visited resolved queue).1 := by
  intro visited resolved queue
  induction visited, resolved, queue using bfsAux.induct doc with
  | case1 visited resolved =>
      intro k c hk hknot
      rw [bfsAux_nil] at hk
      exact absurd hk hknot
  | case2 visited resolved x xs hp ih =>
      intro k c hk hknot hc r hr k' hk'
      rw [bfsAux_skip_unparsable doc visited resolved x xs hp] at hk ⊢
      exact ih k c hk hknot hc r hr k' hk'
  | case3 visited resolved x xs ct name hp hv ih =>
      intro k c hk hknot hc r hr k' hk'
      rw [bfsAux_cons_visited doc visited resolved x xs ct name hp hv] at hk ⊢
      exact ih k c hk hknot hc r hr k' hk'
  | case4 visited resolved x xs ct name hp hv hc0 ih =>
      intro k c hk hknot hc r hr k' hk'
      rw [bfsAux_cons_new_none doc visited resolved x xs ct name hp hv hc0] at hk ⊢
      by_cases hkey : k = (ct, name)
      · subst hkey
        rw [hc0] at hc
        exact absurd hc (by simp)
      · exact ih k c hk (fun h => by
          rcases List.mem_cons.mp h with h2 | h2
          · exact hkey h2
          · exact hknot h2) hc r hr k' hk'
  | case5 visited resolved x xs ct name hp hv cdef hc0 ih =>
      intro k c hk hknot hc r hr k' hk'
      rw [bfsAux_cons_new_some doc visited resolved x xs ct name cdef hp hv hc0] at hk ⊢
      by_cases hkey : k = (ct, name)
      · subst hkey
        rw [hc0] at hc
        obtain rfl := Option.some.inj hc
        exact bfsAux_queue_complete doc _ _ _ r
          (List.mem_append.mpr (Or.inr hr)) k' hk'
      · exact ih k c hk (fun h => by
          rcases List.mem_cons.mp h with h2 | h2
          · exact hkey h2
          · exact hknot h2) hc r hr k' hk'

theorem bfsAux_visited_resolved (doc : JValue) :
    ∀ (visited : List CKey) (resolved : Resolved) (queue : List JValue),
      (∀ (k : CKey) (c : JValue), k ∈ visited → getComponent doc k.1 k.2 = some c →
        (lookupKV (resolved.get k.1) k.2).isSome = true) →
      ∀ (k : CKey) (c : JValue), k ∈ (bfsAux doc visited resolved queue).1 →
        getComponent doc k.1 k.2 = some c →
        (lookupKV ((bfsAux doc visited resolved queue).2.get k.1) k.2).isSome = true := by
  intro visited resolved queue
  induction visited, resolved, queue using bfsAux.induct doc with
  | case1 visited resolved =>
      intro hinv k c hk hc
      rw [bfsAux_nil] at hk ⊢
      exact hinv k c hk hc
  | case2 visited resolved x xs hp ih =>
      intro hinv k c hk hc
      rw [bfsAux_skip_unparsable doc visited resolved x xs hp] at hk ⊢
      exact ih hinv k c hk hc
  | case3 visited resolved x xs ct name hp hv ih =>
      intro hinv k c hk hc
      rw [bfsAux_cons_visited doc visited resolved x xs ct name hp hv] at hk ⊢
      exact ih hinv k c hk hc
  | case4 visited resolved x xs ct name hp hv hc0 ih =>
      intro hinv k c hk hc
      rw [bfsAux_cons_new_none doc visited resolved x xs ct name hp hv hc0] at hk ⊢
      refine ih ?_ k c hk hc
      intro k2 c2 hk2 hc2
      rcases List.mem_cons.mp hk2 with rfl | hk3
      · rw [hc0] at hc2
        exact absurd hc2 (by simp)
      · exact hinv k2 c2 hk3 hc2
  | case5 visited resolved x xs ct name hp hv cdef hc0 ih =>
      intro hinv k c hk hc
      rw [bfsAux_cons_new_some doc visited resolved x xs ct name cdef hp hv hc0] at hk ⊢
      refine ih ?_ k c hk hc
      intro k2 c2 hk2 hc2
      rcases List.mem_cons.mp hk2 with rfl | hk3
      · rw [Resolved.get_add]
        rw [if_pos rfl, lookupKV_setKey, if_pos rfl]
        rfl
      · rw [Resolved.get_add]
        by_cases hct : k2.1 = ct
        · rw [if_pos hct, lookupKV_setKey]
          by_cases hn : k2.2 = name
          · rw [if_pos hn]
            rfl
          · rw [if_neg hn]
            exact hinv k2 c2 hk3 hc2
        · rw [if_neg hct]
          exact hinv k2 c2 hk3 hc2

theorem bfsAux_nodup (doc : JValue) :
    ∀ (visited : List CKey) (resolved : Resolved) (queue : List JValue),
      (∀ ct, (keysOf (resolved.get ct)).Nodup) →
      ∀ ct, (keysOf ((bfsAux doc visited resolved queue).2.get ct)).Nodup := by
  intro visited resolved queue
  induction visited, resolved, queue using bfsAux.induct doc with
  | case1 visited resolved =>
      intro hnd ct
      rw [bfsAux_nil]
      exact hnd ct
  | case2 visited resolved x xs hp ih =>
      intro hnd ct
      rw [bfsAux_skip_unparsable doc visited resolved x xs hp]
      exact ih hnd ct
  | case3 visited resolved x xs ct0 name hp hv ih =>
      intro hnd ct
      rw [bfsAux_cons_visited doc visited resolved x xs ct0 name hp hv]
      exact ih hnd ct
  | case4 visited resolved x xs ct0 name hp hv hc ih =>
      intro hnd ct
      rw [bfsAux_cons_new_none doc visited resolved x xs ct0 name hp hv hc]
      exact ih hnd ct
  | case5 visited resolved x xs ct0 name hp hv cdef hc ih =>
      intro hnd ct
      rw [bfsAux_cons_new_some doc visited resolved x xs ct0 name cdef hp hv hc]
      refine ih ?_ ct
      intro ct2
      rw [Resolved.get_add]
      by_cases hct : ct2 = ct0
      · rw [if_pos hct]
        exact keysOf_setKey_nodup name cdef (hnd ct2)
      · rw [if_neg hct]
        exact hnd ct2

theorem keysOf_empty_get (ct : ComponentType) :
    keysOf (Resolved.empty.get ct) = [] := by
  cases ct <;> rfl

theorem addSecurityNames_nodup (doc : JValue) :
    ∀ (names : List String) (visited : List CKey) (resolved : Resolved),
      (∀ ct, (keysOf (resolved.get ct)).Nodup) →
      ∀ ct, (keysOf ((addSecurityNames doc names visited resolved).2.get ct)).Nodup := by
  intro names
  induction names with
  | nil => intro visited resolved h ct; exact h ct
  | cons name rest ih =>
      intro visited resolved h ct
      simp only [addSecurityNames]
      by_cases hv : ((ComponentType.securitySchemes : ComponentType), name) ∈ visited
      · rw [if_pos hv]
        exact ih visited resolved h ct
      · rw [if_neg hv]
        cases hc : getComponent doc .securitySchemes name with
        | none => exact ih _ _ h ct
        | some d =>
            refine ih _ _ ?_ ct
            intro ct2
            rw [Resolved.get_add]
            by_cases hct : ct2 = ComponentType.securitySchemes
            · rw [if_pos hct]
              exact keysOf_setKey_nodup name d (h ct2)
            · rw [if_neg hct]
              exact h ct2

theorem addSecurityNames_inv (doc : JValue) :
    ∀ (names : List String) (visited : List CKey) (resolved : Resolved),
      (∀ (k : CKey) (c : JValue), k ∈ visited → getComponent doc k.1 k.2 = some c →
        (lookupKV (resolved.get k.1) k.2).isSome = true) →
      ∀ (k : CKey) (c : JValue), k ∈ (addSecurityNames doc names visited resolved).1 →
        getComponent doc k.1 k.2 = some c →
        (lookupKV ((addSecurityNames doc names visited resolved).2.get k.1) k.2).isSome = true := by
  intro names
  induction names with
  | nil => intro visited resolved hinv k c hk hc; exact hinv k c hk hc
  | cons name rest ih =>
      intro visited resolved hinv k c hk hc
      simp only [addSecurityNames] at hk ⊢
      by_cases hv : ((ComponentType.securitySchemes : ComponentType), name) ∈ visited
      · rw [if_pos hv] at hk ⊢
        exact ih visited resolved hinv k c hk hc
      · rw [if_neg hv] at hk ⊢
        cases hc0 : getComponent doc .securitySchemes name with
        | none =>
            simp only [hc0] at hk ⊢
            refine ih _ _ ?_ k c hk hc
            intro k2 c2 hk2 hc2
            rcases List.mem_cons.mp hk2 with rfl | hk3
            · rw [hc0] at hc2
              exact absurd hc2 (by simp)
            · exact hinv k2 c2 hk3 hc2
        | some d =>
            simp only [hc0] at hk ⊢
            refine ih _ _ ?_ k c hk hc
            intro k2 c2 hk2 hc2
            rcases List.mem_cons.mp hk2 with rfl | hk3
            · rw [Resolved.get_add, if_pos rfl, lookupKV_setKey, if_pos rfl]
              rfl
            · rw [Resolved.get_add]
              by_cases hct : k2.1 = ComponentType.securitySchemes
              · rw [if_pos hct, lookupKV_setKey]
                by_cases hn : k2.2 = name
                · rw [if_pos hn]
                  rfl
                · rw [if_neg hn]
                  exact hinv k2 c2 hk3 hc2
              · rw [if_neg hct]
                exact hinv k2 c2 hk3 hc2

theorem resolveSecurityReqs_nodup (doc : JValue) :
    ∀ (reqs : List JValue) (visited : List CKey) (resolved : Resolved),
      (∀ ct, (keysOf (resolved.get ct)).Nodup) →
      ∀ ct, (keysOf ((resolveSecurityReqs doc reqs visited resolved).2.get ct)).Nodup := by
  intro reqs
  induction reqs with
  | nil => intro visited resolved h ct; exact h ct
  | cons req rest ih =>
      intro visited resolved h ct
      simp only [resolveSecurityReqs]
      exact ih _ _ (addSecurityNames_nodup doc (securityReqNames req) visited resolved h) ct

theorem resolveSecurityReqs_inv (doc : JValue) :
    ∀ (reqs : List JValue) (visited : List CKey) (resolved : Resolved),
      (∀ (k : CKey) (c : JValue), k ∈ visited → getComponent doc k.1 k.2 = some c →
        (lookupKV (resolved.get k.1) k.2).isSome = true) →
      ∀ (k : CKey) (c : JValue), k ∈ (resolveSecurityReqs doc reqs visited resolved).1 →
        getComponent doc k.1 k.2 = some c →
        (lookupKV ((resolveSecurityReqs doc reqs visited resolved).2.get k.1) k.2).isSome = true := by
  intro reqs
  induction reqs with
  | nil => intro visited resolved hinv k c hk hc; exact hinv k c hk hc
  | cons req rest ih =>
      intro visited resolved hinv k c hk hc
      simp only [resolveSecurityReqs] at hk ⊢
      exact ih _ _ (addSecurityNames_inv doc (securityReqNames req) visited resolved hinv) k c hk hc

theorem resolveSecuritySchemes_nodup (doc operation : JValue) (ct : ComponentType) :
    (keysOf ((resolveSecuritySchemes doc operation [] Resolved.empty).2.get ct)).Nodup := by
  have hbase : ∀ ct2, (keysOf ((Resolved.empty : Resolved).get ct2)).Nodup := by
    intro ct2
    rw [keysOf_empty_get]
    exact List.nodup_nil
  unfold resolveSecuritySchemes
  by_cases hf : jFalsy (securityOf doc operation) = true
  · rw [if_pos hf]
    exact hbase ct
  · rw [if_neg hf]
    cases securityOf doc operation with
    | arr reqs => exact resolveSecurityReqs_nodup doc reqs [] Resolved.empty hbase ct
    | null => exact hbase ct
    | bool b => exact hbase ct
    | num m => exact hbase ct
    | str s => exact hbase ct
    | obj kvs => exact hbase ct

theorem resolveSecuritySchemes_inv (doc operation : JValue) :
    ∀ (k : CKey) (c : JValue),
      k ∈ (resolveSecuritySchemes doc operation [] Resolved.empty).1 →
      getComponent doc k.1 k.2 = some c →
      (lookupKV ((resolveSecuritySchemes doc operation [] Resolved.empty).2.get k.1) k.2).isSome = true := by
  have hbase : ∀ (k : CKey) (c : JValue), k ∈ ([] : List CKey) →
      getComponent doc k.1 k.2 = some c →
      (lookupKV ((Resolved.empty : Resolved).get k.1) k.2).isSome = true := by
    intro k c hk
    exact absurd hk (List.not_mem_nil k)
  unfold resolveSecuritySchemes
  by_cases hf : jFalsy (securityOf doc operation) = true
  · rw [if_pos hf]
    exact hbase
  · rw [if_neg hf]
    cases securityOf doc operation with
    | arr reqs => exact resolveSecurityReqs_inv doc reqs [] Resolved.empty hbase
    | null => exact hbase
    | bool b => exact hbase
    | num m => exact hbase
    | str s => exact hbase
    | obj kvs => exact hbase

theorem bfsAux_reach_complete (doc : JValue) (v0 : List CKey) (r0 : Resolved)
    (seeds : List JValue) :
    ∀ k, ReachFrom doc v0 seeds k → k ∈ (bfsAux doc v0 r0 seeds).1 := by
  intro k hk
  induction hk with
  | seed r k hr hp => exact bfsAux_queue_complete doc v0 r0 seeds r hr k hp
  | step k k' c r _ hknot hc hscan hp ih =>
      exact bfsAux_expand doc v0 r0 seeds k c ih hknot hc r hscan k' hp

/-- C1: for every document and every (path, method) present in `paths`,
`resolve_all_refs` terminates with a result (`bfsAux` is a total function,
proved terminating by the source's own visited-set argument over the finite
universe of `(category, name)` pairs, so cycles of any length are covered);
each `(category, name)` pair appears at most once in the returned
`ResolvedComponents` (the key lists are duplicate-free), and every key that
is reachable through `$ref` edges from the seed queue and present in the
document's `components` section appears exactly once. -/
theorem c1_cycle_exactly_once (doc : JValue) (path method : String)
    (pathItem : List (String × JValue)) (operation : JValue)
    (hep : endpointOf doc path method = some (pathItem, operation)) :
    ∃ res, resolveAllRefs doc path method = some res ∧
      (∀ ct, (keysOf (res.get ct)).Nodup) ∧
      (∀ (k : CKey) (c : JValue),
        ReachFrom doc (resolveSecuritySchemes doc operation [] Resolved.empty).1
          (scanV (jGetD (.obj pathItem) "parameters" (.arr [])) ++ scanV operation) k →
        getComponent doc k.1 k.2 = some c →
        (keysOf (res.get k.1)).count k.2 = 1) := by
  have hnd0 : ∀ ct, (keysOf ((resolveSecuritySchemes doc operation [] Resolved.empty).2.get ct)).Nodup :=
    fun ct => resolveSecuritySchemes_nodup doc operation ct
  refine ⟨(bfsAux doc (resolveSecuritySchemes doc operation [] Resolved.empty).1
      (resolveSecuritySchemes doc operation [] Resolved.empty).2
      (scanV (jGetD (.obj pathItem) "parameters" (.arr [])) ++ scanV operation)).2,
    ?_, ?_, ?_⟩
  · simp only [resolveAllRefs, hep]
  · intro ct
    exact bfsAux_nodup doc _ _ _ hnd0 ct
  · intro k c hreach hc
    have hmemv : k ∈ (bfsAux doc (resolveSecuritySchemes doc operation [] Resolved.empty).1
        (resolveSecuritySchemes doc operation [] Resolved.empty).2
        (scanV (jGetD (.obj pathItem) "parameters" (.arr [])) ++ scanV operation)).1 :=
      bfsAux_reach_complete doc _ _ _ k hreach
    have hsome := bfsAux_visited_resolved doc _ _ _
      (resolveSecuritySchemes_inv doc operation) k c hmemv hc
    have hmem := (lookupKV_isSome_iff_mem _ _).mp hsome
    exact List.count_eq_one_of_mem (bfsAux_nodup doc _ _ _ hnd0 k.1) hmem

theorem c1_cycle_exactly_once_witness :
    endpointOf c1doc "/p" "get" = some (c1pi, c1op) ∧
    ∃ res, resolveAllRefs c1doc "/p" "get" = some res ∧
      (∀ ct, (keysOf (res.get ct)).Nodup) ∧
      (keysOf (res.get ComponentType.schemas)).count "A" = 1 ∧
      (keysOf (res.get ComponentType.schemas)).count "B" = 1 := by
  refine ⟨rfl, ?_⟩
  obtain ⟨res, h1, h2, h3⟩ := c1_cycle_exactly_once c1doc "/p" "get" c1pi c1op rfl
  have hseedA : ReachFrom c1doc (resolveSecuritySchemes c1doc c1op [] Resolved.empty).1
      (scanV (jGetD (.obj c1pi) "parameters" (.arr [])) ++ scanV c1op)
      (ComponentType.schemas, "A") :=
    ReachFrom.seed (.str "#/components/schemas/A") (ComponentType.schemas, "A")
      (List.Mem.head _) rfl
  have hstepB : ReachFrom c1doc (resolveSecuritySchemes c1doc c1op [] Resolved.empty).1
      (scanV (jGetD (.obj c1pi) "parameters" (.arr [])) ++ scanV c1op)
      (ComponentType.schemas, "B") :=
    ReachFrom.step (ComponentType.schemas, "A") (ComponentType.schemas, "B")
      (.obj [("$ref", .str "#/components/schemas/B")])
      (.str "#/components/schemas/B") hseedA (List.not_mem_nil _) rfl
      (List.Mem.head _) rfl
  exact ⟨res, h1, h2,
    h3 (ComponentType.schemas, "A") (.obj [("$ref", .str "#/components/schemas/B")])
      hseedA rfl,
    h3 (ComponentType.schemas, "B") (.obj [("$ref", .str "#/components/schemas/A")])
      hstepB rfl⟩

end SliceOas